import Mathlib

/-!
Shallow embedding of `src/monitoring/data_lineage.py` (class `DataLineageTracker`)
and verification of the specified properties of the lineage dependency-graph engine.

Python dictionaries are modelled as association lists whose keys are kept unique by
`dictSet`; Python sets are modelled as duplicate-free lists in insertion order
(`ssetInsert` adds an element only when absent, `sunion` models `set.update`).
-/

namespace DataLineage

abbrev Str := String

/-- Looking a key up in a Python dict (`d[k]` / `d.get(k)`). -/
def dictLookup {V : Type} (d : List (Str × V)) (k : Str) : Option V :=
  (d.find? (fun p => p.1 == k)).map Prod.snd

/-- `k in d` for a Python dict. -/
def dictContains {V : Type} (d : List (Str × V)) (k : Str) : Bool :=
  (dictLookup d k).isSome

/-- `d[k] = v` for a Python dict: replace in place when the key exists, append otherwise. -/
def dictSet {V : Type} (d : List (Str × V)) (k : Str) (v : V) : List (Str × V) :=
  if dictContains d k then d.map (fun p => if p.1 == k then (k, v) else p)
  else d ++ [(k, v)]

/-- The key list of a Python dict. -/
def keysOf {V : Type} (d : List (Str × V)) : List Str := d.map Prod.fst

/-- `s.add(x)` for a Python set modelled as a duplicate-free list. -/
def ssetInsert (s : List Str) (x : Str) : List Str :=
  if x ∈ s then s else s ++ [x]

/-- `a.update(b)` for Python sets. -/
def sunion (a b : List Str) : List Str := b.foldl ssetInsert a

/-- `DataAsset` dataclass. `__post_init__` turns `tags=None` into `[]`, so `tags`
is always a list here. -/
structure DataAsset where
  name : Str
  type : Str
  schema : Str
  description : Option Str := none
  created_date : Option Str := none
  last_modified : Option Str := none
  owner : Option Str := none
  tags : List Str := []
deriving DecidableEq, Repr

/-- `DataTransformation` dataclass. -/
structure DataTransformation where
  source_assets : List Str
  target_asset : Str
  transformation_type : Str
  transformation_logic : Str
  created_date : Str
  created_by : Str
deriving DecidableEq, Repr

/-- The mutable state of a `DataLineageTracker`. -/
structure Tracker where
  assets : List (Str × DataAsset)
  transformations : List DataTransformation
  dependencies : List (Str × List Str)
  downstream : List (Str × List Str)
deriving DecidableEq, Repr

/-- A freshly constructed tracker whose backing file does not exist
(`load_lineage` then returns immediately). -/
def emptyTracker : Tracker := ⟨[], [], [], []⟩

/-- `f"{asset.schema}.{asset.name}"`. -/
def assetKey (a : DataAsset) : Str := a.schema ++ "." ++ a.name

/-- `if k not in d: d[k] = set()`. -/
def ensureKey (d : List (Str × List Str)) (k : Str) : List (Str × List Str) :=
  if dictContains d k then d else dictSet d k []

/-- `DataLineageTracker.add_asset`: store the asset under its qualified key and
ensure both adjacency maps hold a (possibly empty) entry for it. -/
def add_asset (t : Tracker) (a : DataAsset) : Tracker :=
  { t with
    assets := dictSet t.assets (assetKey a) a
    dependencies := ensureKey t.dependencies (assetKey a)
    downstream := ensureKey t.downstream (assetKey a) }

/-- `d[k].add(x)` where the caller has ensured `k` is present (the `none` branch is
unreachable at call sites of `add_transformation`; a missing key would be a Python
`KeyError`, which is modelled separately for `_rebuild_dependency_graphs`). -/
def addEdge (d : List (Str × List Str)) (k x : Str) : List (Str × List Str) :=
  match dictLookup d k with
  | some s => dictSet d k (ssetInsert s x)
  | none => d

/-- Body of the `for source in transformation.source_assets` loop of
`add_transformation`, threading the `dependencies` and `downstream` maps. -/
def addTransformationStep (target : Str) (p : List (Str × List Str) × List (Str × List Str))
    (source : Str) : List (Str × List Str) × List (Str × List Str) :=
  (addEdge p.1 target source, addEdge (ensureKey p.2 source) source target)

/-- `DataLineageTracker.add_transformation`. -/
def add_transformation (t : Tracker) (tr : DataTransformation) : Tracker :=
  let target := tr.target_asset
  let deps0 := ensureKey t.dependencies target
  let p := tr.source_assets.foldl (addTransformationStep target) (deps0, t.downstream)
  { t with
    transformations := t.transformations ++ [tr]
    dependencies := p.1
    downstream := p.2 }

/-- One producer call pushed at the tracker. -/
inductive Op where
  | asset (a : DataAsset)
  | transform (tr : DataTransformation)

def applyOp (t : Tracker) : Op → Tracker
  | .asset a => add_asset t a
  | .transform tr => add_transformation t tr

def applyOps (t : Tracker) (ops : List Op) : Tracker := ops.foldl applyOp t

/-- `g.get(k, set())`. -/
def getEdges (g : List (Str × List Str)) (k : Str) : List Str :=
  (dictLookup g k).getD []

/-- Number of keys of `g` not yet visited; the termination measure of the
recursive traversals. -/
def unvisitedCount (g : List (Str × List Str)) (visited : List Str) : Nat :=
  ((keysOf g).toFinset \ visited.toFinset).card

/-- Shared body of `get_upstream_dependencies` and `get_downstream_impact`
(the two methods are textually symmetric, one reads `self.dependencies`, the
other `self.downstream`).  A node already on the current path is skipped; each
recursive branch receives a copy of the visited set extended by the current
node (`visited.copy()` after `visited.add(asset)`). -/
def closure (g : List (Str × List Str)) (asset : Str) (visited : List Str) : List Str :=
  if hv : asset ∈ visited then []
  else
    match hdir : dictLookup g asset with
    | none => []
    | some direct =>
        direct.attach.foldl
          (fun acc d => sunion acc (closure g d.1 (ssetInsert visited asset)))
          (sunion [] direct)
termination_by unvisitedCount g visited
decreasing_by
  have hkmem : asset ∈ (keysOf g).toFinset := by
    rw [List.mem_toFinset]
    have h1 : (dictLookup g asset).isSome := by rw [hdir]; rfl
    unfold dictLookup at h1
    rcases Option.isSome_iff_exists.mp h1 with ⟨v, hv1⟩
    rcases Option.map_eq_some'.mp hv1 with ⟨p, hp, hpv⟩
    have hmem := List.mem_of_find?_eq_some hp
    have hpk : p.1 = asset := by simpa using List.find?_some hp
    exact hpk ▸ List.mem_map_of_mem Prod.fst hmem
  unfold unvisitedCount
  rw [show (ssetInsert visited asset).toFinset = insert asset visited.toFinset from by
    unfold ssetInsert
    by_cases hx : asset ∈ visited
    · simp [hx, List.mem_toFinset, Finset.insert_eq_self.mpr]
    · simp [hx, Finset.insert_eq, Finset.union_comm]]
  apply Finset.card_lt_card
  constructor
  · exact Finset.sdiff_subset_sdiff le_rfl (Finset.subset_insert asset _)
  · intro hsub
    have h2 := hsub (Finset.mem_sdiff.mpr ⟨hkmem, by simpa [List.mem_toFinset] using hv⟩)
    simp [Finset.mem_sdiff] at h2

/-- `DataLineageTracker.get_upstream_dependencies` (with the default `visited=None`). -/
def get_upstream_dependencies (t : Tracker) (asset : Str) : List Str :=
  closure t.dependencies asset []

/-- `DataLineageTracker.get_downstream_impact` (with the default `visited=None`). -/
def get_downstream_impact (t : Tracker) (asset : Str) : List Str :=
  closure t.downstream asset []

/-- The inner `find_path` of `get_lineage_path`.  `find_path` always returns either
`None` or a non-empty list, so Python's truthiness test `if result:` coincides with
an is-not-`None` test, which is how the fold treats the accumulator. -/
def findPath (g : List (Str × List Str)) (current target : Str) (path visited : List Str) :
    Option (List Str) :=
  if current == target then some (path ++ [current])
  else if hv : current ∈ visited then none
  else
    match hdir : dictLookup g current with
    | none => none
    | some ds =>
        ds.attach.foldl
          (fun acc d =>
            match acc with
            | some r => some r
            | none => findPath g d.1 target (path ++ [current]) (ssetInsert visited current))
          none
termination_by unvisitedCount g visited
decreasing_by
  have hkmem : current ∈ (keysOf g).toFinset := by
    rw [List.mem_toFinset]
    have h1 : (dictLookup g current).isSome := by rw [hdir]; rfl
    unfold dictLookup at h1
    rcases Option.isSome_iff_exists.mp h1 with ⟨v, hv1⟩
    rcases Option.map_eq_some'.mp hv1 with ⟨p, hp, hpv⟩
    have hmem := List.mem_of_find?_eq_some hp
    have hpk : p.1 = current := by simpa using List.find?_some hp
    exact hpk ▸ List.mem_map_of_mem Prod.fst hmem
  unfold unvisitedCount
  rw [show (ssetInsert visited current).toFinset = insert current visited.toFinset from by
    unfold ssetInsert
    by_cases hx : current ∈ visited
    · simp [hx, List.mem_toFinset, Finset.insert_eq_self.mpr]
    · simp [hx, Finset.insert_eq, Finset.union_comm]]
  apply Finset.card_lt_card
  constructor
  · exact Finset.sdiff_subset_sdiff le_rfl (Finset.subset_insert current _)
  · intro hsub
    have h2 := hsub (Finset.mem_sdiff.mpr ⟨hkmem, by simpa [List.mem_toFinset] using hv⟩)
    simp [Finset.mem_sdiff] at h2

/-- `DataLineageTracker.get_lineage_path` (`find_path(...) or []`; `find_path`
never returns an empty list, so `or` only turns `None` into `[]`). -/
def get_lineage_path (t : Tracker) (source target : Str) : List Str :=
  (findPath t.downstream source target [] []).getD []

/-- One entry of `impact_analysis['affected_transformations']`. -/
structure AffectedTransformation where
  transformation : Str
  type : Str
  affected_source : Str
deriving DecidableEq, Repr

/-- The dictionary returned by `analyze_impact` (with `affected_assets` already
converted from a set to a list, as the last line of the method does). -/
structure ImpactAnalysis where
  changed_assets : List Str
  affected_assets : List Str
  affected_transformations : List AffectedTransformation
  risk_level : Str
  recommendations : List Str
deriving DecidableEq, Repr

/-- Body of the `for asset in changed_assets` loop of `analyze_impact`: union the
downstream closure into the affected set and append one record per logged
transformation whose source list contains the asset. -/
def impactStep (t : Tracker) (p : List Str × List AffectedTransformation) (asset : Str) :
    List Str × List AffectedTransformation :=
  (sunion p.1 (get_downstream_impact t asset),
   p.2 ++ (t.transformations.filter (fun tr => decide (asset ∈ tr.source_assets))).map
     (fun tr => ⟨tr.target_asset, tr.transformation_type, asset⟩))

/-- The tail of `analyze_impact`: risk classification over the accumulated
`(affected_assets, affected_transformations)` pair, first match wins, and the
fixed recommendation texts per tier. -/
def riskAssess (changed_assets : List Str)
    (p : List Str × List AffectedTransformation) : ImpactAnalysis :=
  if 10 < p.1.length ∨ 5 < p.2.length then
    ⟨changed_assets, p.1, p.2, "HIGH",
     ["Consider implementing changes in stages",
      "Run comprehensive testing before deployment"]⟩
  else if 5 < p.1.length ∨ 2 < p.2.length then
    ⟨changed_assets, p.1, p.2, "MEDIUM", ["Test affected downstream assets"]⟩
  else
    ⟨changed_assets, p.1, p.2, "LOW", []⟩

/-- `DataLineageTracker.analyze_impact`. -/
def analyze_impact (t : Tracker) (changed_assets : List Str) : ImpactAnalysis :=
  riskAssess changed_assets (changed_assets.foldl (impactStep t) ([], []))

/-- `asset_key.replace('.', '_').replace('-', '_')`. -/
def nodeId (key : Str) : Str := (key.replace "." "_").replace "-" "_"

/-- One node line of the Mermaid diagram, styled by the three-way schema switch. -/
def mermaidNodeLine (key : Str) (a : DataAsset) : Str :=
  let nid := nodeId key
  let label := a.name ++ "\\n(" ++ a.type ++ ")"
  if a.schema == "bronze" then "    " ++ nid ++ "[\"" ++ label ++ "\"]:::bronze"
  else if a.schema == "silver" then "    " ++ nid ++ "[\"" ++ label ++ "\"]:::silver"
  else if a.schema == "gold" then "    " ++ nid ++ "[\"" ++ label ++ "\"]:::gold"
  else "    " ++ nid ++ "[\"" ++ label ++ "\"]"

/-- The edge lines: one `-->` line per `(source, target)` pair of each transformation. -/
def mermaidEdgeLines (trs : List DataTransformation) : List Str :=
  trs.flatMap (fun tr =>
    tr.source_assets.map (fun s => "    " ++ nodeId s ++ " --> " ++ nodeId tr.target_asset))

/-- `DataLineageTracker._generate_mermaid_diagram`. -/
def generateMermaidDiagram (t : Tracker) : Str :=
  String.intercalate "\n"
    (["graph TD"] ++ t.assets.map (fun p => mermaidNodeLine p.1 p.2)
      ++ mermaidEdgeLines t.transformations
      ++ ["",
          "    classDef bronze fill:#cd7f32,stroke:#8B4513,stroke-width:2px,color:#fff",
          "    classDef silver fill:#c0c0c0,stroke:#808080,stroke-width:2px,color:#000",
          "    classDef gold fill:#ffd700,stroke:#daa520,stroke-width:2px,color:#000"])

/-- The fill color chosen for a node of the DOT diagram. -/
def dotColor (schema : Str) : Str :=
  if schema == "bronze" then "#CD7F32"
  else if schema == "silver" then "#C0C0C0"
  else if schema == "gold" then "#FFD700"
  else "#CCCCCC"

/-- One node line of the DOT diagram. -/
def dotNodeLine (key : Str) (a : DataAsset) : Str :=
  "    " ++ nodeId key ++ " [label=\"" ++ a.name ++ "\\n(" ++ a.type ++ ")\", fillcolor=\""
    ++ dotColor a.schema ++ "\", style=filled];"

/-- The DOT edge lines. -/
def dotEdgeLines (trs : List DataTransformation) : List Str :=
  trs.flatMap (fun tr =>
    tr.source_assets.map (fun s => "    " ++ nodeId s ++ " -> " ++ nodeId tr.target_asset ++ ";"))

/-- `DataLineageTracker._generate_dot_diagram`. -/
def generateDotDiagram (t : Tracker) : Str :=
  String.intercalate "\n"
    (["digraph DataLineage \x7b", "    rankdir=LR;", "    node [shape=box];"]
      ++ t.assets.map (fun p => dotNodeLine p.1 p.2)
      ++ dotEdgeLines t.transformations
      ++ ["\x7d"])

/-- `DataLineageTracker.generate_lineage_diagram`; the `else` branch raises
`ValueError`, modelled as `Except.error` with the message text. -/
def generate_lineage_diagram (t : Tracker) (output_format : Str) : Except Str Str :=
  if output_format == "mermaid" then .ok (generateMermaidDiagram t)
  else if output_format == "dot" then .ok (generateDotDiagram t)
  else .error ("Unsupported output format: " ++ output_format)

/-- The inner source loop of `_rebuild_dependency_graphs` for one transformation.
`self.dependencies[target]` and `self.downstream[source]` raise `KeyError` on an
absent key; the `Bool` is `false` when that happened, and the maps are the state
the raised exception left behind. -/
def rebuildSources (deps ds : List (Str × List Str)) (target : Str) :
    List Str → (List (Str × List Str) × List (Str × List Str)) × Bool
  | [] => ((deps, ds), true)
  | s :: rest =>
    match dictLookup deps target with
    | none => ((deps, ds), false)
    | some depSet =>
      let deps' := dictSet deps target (ssetInsert depSet s)
      match dictLookup ds s with
      | none => ((deps', ds), false)
      | some dsSet => rebuildSources deps' (dictSet ds s (ssetInsert dsSet target)) target rest

/-- The outer loop of `_rebuild_dependency_graphs` over the transformation log. -/
def rebuildTrans (deps ds : List (Str × List Str)) :
    List DataTransformation → (List (Str × List Str) × List (Str × List Str)) × Bool
  | [] => ((deps, ds), true)
  | tr :: rest =>
    let r := rebuildSources deps ds tr.target_asset tr.source_assets
    if r.2 then rebuildTrans r.1.1 r.1.2 rest else r

/-- `DataLineageTracker._rebuild_dependency_graphs`: clears both maps,
re-initializes an empty entry per registered asset key, then replays the
transformation log.  The `Bool` is `false` when the replay raised `KeyError`
(a transformation endpoint that is not a registered asset key). -/
def rebuild_dependency_graphs (t : Tracker) : Tracker × Bool :=
  let init := t.assets.map (fun p => (p.1, ([] : List Str)))
  let r := rebuildTrans init init t.transformations
  ({ t with dependencies := r.1.1, downstream := r.1.2 }, r.2)

/-- JSON values, restricted to the shapes the lineage document uses. -/
inductive JValue where
  | jnull
  | jstr (s : Str)
  | jarr (items : List JValue)
  | jobj (fields : List (Str × JValue))
deriving Repr

def optJson : Option Str → JValue
  | none => .jnull
  | some s => .jstr s

/-- `dataclasses.asdict` on a `DataAsset`, as written by `json.dump`. -/
def assetToJson (a : DataAsset) : JValue :=
  .jobj [("name", .jstr a.name), ("type", .jstr a.type), ("schema", .jstr a.schema),
         ("description", optJson a.description), ("created_date", optJson a.created_date),
         ("last_modified", optJson a.last_modified), ("owner", optJson a.owner),
         ("tags", .jarr (a.tags.map JValue.jstr))]

/-- `dataclasses.asdict` on a `DataTransformation`. -/
def transformationToJson (tr : DataTransformation) : JValue :=
  .jobj [("source_assets", .jarr (tr.source_assets.map JValue.jstr)),
         ("target_asset", .jstr tr.target_asset),
         ("transformation_type", .jstr tr.transformation_type),
         ("transformation_logic", .jstr tr.transformation_logic),
         ("created_date", .jstr tr.created_date),
         ("created_by", .jstr tr.created_by)]

/-- `DataLineageTracker.save_lineage`: the JSON document written to the backing
file; `now` stands for `datetime.now().isoformat()`. -/
def save_lineage (t : Tracker) (now : Str) : JValue :=
  .jobj [("assets", .jobj (t.assets.map (fun p => (p.1, assetToJson p.2)))),
         ("transformations", .jarr (t.transformations.map transformationToJson)),
         ("last_updated", .jstr now)]

def jStr? : JValue → Option Str
  | .jstr s => some s
  | _ => none

def jOptStr? : JValue → Option (Option Str)
  | .jnull => some none
  | .jstr s => some (some s)
  | _ => none

def jStrList? : JValue → Option (List Str)
  | .jarr items => items.mapM jStr?
  | _ => none

/-- The `tags` field: a JSON `null` becomes `None`, which `__post_init__` turns
into `[]`. -/
def jTags? : JValue → Option (List Str)
  | .jnull => some []
  | .jarr items => items.mapM jStr?
  | _ => none

/-- `DataAsset(**asset_data)`; `none` models the error the surrounding `try` of
`load_lineage` catches. -/
def assetFromJson (j : JValue) : Option DataAsset :=
  match j with
  | .jobj fields => do
      let name ← dictLookup fields "name" >>= jStr?
      let type ← dictLookup fields "type" >>= jStr?
      let schema ← dictLookup fields "schema" >>= jStr?
      let description ← dictLookup fields "description" >>= jOptStr?
      let created_date ← dictLookup fields "created_date" >>= jOptStr?
      let last_modified ← dictLookup fields "last_modified" >>= jOptStr?
      let owner ← dictLookup fields "owner" >>= jOptStr?
      let tags ← dictLookup fields "tags" >>= jTags?
      pure ⟨name, type, schema, description, created_date, last_modified, owner, tags⟩
  | _ => none

/-- `DataTransformation(**transform_data)`. -/
def transformationFromJson (j : JValue) : Option DataTransformation :=
  match j with
  | .jobj fields => do
      let source_assets ← dictLookup fields "source_assets" >>= jStrList?
      let target_asset ← dictLookup fields "target_asset" >>= jStr?
      let transformation_type ← dictLookup fields "transformation_type" >>= jStr?
      let transformation_logic ← dictLookup fields "transformation_logic" >>= jStr?
      let created_date ← dictLookup fields "created_date" >>= jStr?
      let created_by ← dictLookup fields "created_by" >>= jStr?
      pure ⟨source_assets, target_asset, transformation_type, transformation_logic,
            created_date, created_by⟩
  | _ => none

/-- The `for` loop over `lineage_data.get('assets', {}).items()`; it stops at the
first record `DataAsset(**...)` rejects (the raised error aborts the loop but the
records already stored stay). -/
def loadAssetsRun : List (Str × DataAsset) → List (Str × JValue) → List (Str × DataAsset) × Bool
  | acc, [] => (acc, true)
  | acc, (k, v) :: rest =>
    match assetFromJson v with
    | none => (acc, false)
    | some a => loadAssetsRun (dictSet acc k a) rest

/-- The `for` loop over `lineage_data.get('transformations', [])`. -/
def loadTransRun : List DataTransformation → List JValue → List DataTransformation × Bool
  | acc, [] => (acc, true)
  | acc, v :: rest =>
    match transformationFromJson v with
    | none => (acc, false)
    | some tr => loadTransRun (acc ++ [tr]) rest

/-- `DataLineageTracker.load_lineage` on an existing backing document `doc`.  The
whole body runs inside `try/except`: any failure is caught and logged, and the
tracker keeps the partial state reached at that point (in particular the flag of
`rebuild_dependency_graphs` is discarded). -/
def load_lineage (t : Tracker) (doc : JValue) : Tracker :=
  match doc with
  | .jobj fields =>
    match (match dictLookup fields "assets" with
           | none => some []
           | some (.jobj l) => some l
           | some _ => none) with
    | none => t
    | some assetItems =>
      let ra := loadAssetsRun t.assets assetItems
      let t1 := { t with assets := ra.1 }
      if ra.2 then
        match (match dictLookup fields "transformations" with
               | none => some []
               | some (.jarr l) => some l
               | some _ => none) with
        | none => t1
        | some transItems =>
          let rt := loadTransRun t1.transformations transItems
          let t2 := { t1 with transformations := rt.1 }
          if rt.2 then (rebuild_dependency_graphs t2).1 else t2
      else t1
  | _ => t

/-- The direct-edge relation of an adjacency map: `v` is a direct successor of `u`. -/
def edgeRel (g : List (Str × List Str)) (u v : Str) : Prop := v ∈ getEdges g u

/-- `IsPath g a mid x`: a non-empty walk along `edgeRel g` edges from `a` to `x`
whose intermediate nodes (both endpoints excluded) are `mid`, in order. -/
inductive IsPath (g : List (Str × List Str)) : Str → List Str → Str → Prop where
  | single {a y : Str} : y ∈ getEdges g a → IsPath g a [] y
  | cons {a y z : Str} {mid : List Str} :
      y ∈ getEdges g a → IsPath g y mid z → IsPath g a (y :: mid) z

/-- The bronze-layer asset of the spec's walkthrough scenario. -/
def bronzeT1 : DataAsset := ⟨"t1", "table", "bronze", none, none, none, none, []⟩

/-- The silver-layer asset of the spec's walkthrough scenario. -/
def silverT1 : DataAsset := ⟨"t1", "table", "silver", none, none, none, none, []⟩

/-- The `bronze.t1 → silver.t1` transformation of the spec's walkthrough scenario. -/
def sampleTransformation : DataTransformation :=
  ⟨["bronze.t1"], "silver.t1", "etl", "copy", "2024-01-01", "etl"⟩

/-- The tracker of the spec's walkthrough scenario. -/
def sampleTracker : Tracker :=
  add_transformation (add_asset (add_asset emptyTracker bronzeT1) silverT1) sampleTransformation

/-- A transformation whose endpoints were never registered with `add_asset`. -/
def strayTransformation : DataTransformation := ⟨["a"], "b", "etl", "copy", "2024-01-01", "etl"⟩

/-- A tracker holding only `strayTransformation`, no registered assets. -/
def strayTracker : Tracker := add_transformation emptyTracker strayTransformation

/-- The walkthrough scenario as a producer-call sequence: both assets registered,
then the transformation added. -/
def demoOps : List Op := [Op.asset bronzeT1, Op.asset silverT1, Op.transform sampleTransformation]

/-! ## Basic lemmas on the dict and set models -/

theorem dictLookup_nil {V : Type} (k : Str) : dictLookup ([] : List (Str × V)) k = none := rfl

theorem dictLookup_cons {V : Type} (p : Str × V) (d : List (Str × V)) (k : Str) :
    dictLookup (p :: d) k = if p.1 = k then some p.2 else dictLookup d k := by
  unfold dictLookup
  by_cases h : p.1 = k
  · simp [List.find?_cons, h]
  · simp [List.find?_cons, h]

theorem mem_keysOf_iff {V : Type} (d : List (Str × V)) (k : Str) :
    k ∈ keysOf d ↔ (dictLookup d k).isSome := by
  induction d with
  | nil => simp [keysOf, dictLookup_nil]
  | cons p d ih =>
    rw [dictLookup_cons]
    by_cases h : p.1 = k
    · simp [keysOf, h]
    · simpa [keysOf, h, Ne.symm h] using ih

theorem dictContains_iff {V : Type} (d : List (Str × V)) (k : Str) :
    dictContains d k = true ↔ k ∈ keysOf d := by
  rw [mem_keysOf_iff]; rfl

theorem mem_ssetInsert (s : List Str) (x y : Str) :
    x ∈ ssetInsert s y ↔ x = y ∨ x ∈ s := by
  unfold ssetInsert
  by_cases h : y ∈ s
  · rw [if_pos h]
    constructor
    · exact fun hx => Or.inr hx
    · rintro (rfl | hx)
      · exact h
      · exact hx
  · rw [if_neg h]
    simp [or_comm]

theorem ssetInsert_nodup {s : List Str} (hs : s.Nodup) (y : Str) :
    (ssetInsert s y).Nodup := by
  unfold ssetInsert
  by_cases h : y ∈ s
  · rw [if_pos h]; exact hs
  · rw [if_neg h]; simp [List.nodup_append, hs, h]

theorem mem_sunion (a b : List Str) (x : Str) :
    x ∈ sunion a b ↔ x ∈ a ∨ x ∈ b := by
  induction b generalizing a with
  | nil => simp [sunion]
  | cons y b ih =>
    unfold sunion at ih ⊢
    rw [List.foldl_cons, ih, mem_ssetInsert]
    simp only [List.mem_cons]
    tauto

theorem sunion_nodup {a : List Str} (ha : a.Nodup) (b : List Str) :
    (sunion a b).Nodup := by
  induction b generalizing a with
  | nil => exact ha
  | cons y b ih =>
    unfold sunion at ih ⊢
    rw [List.foldl_cons]
    exact ih (ssetInsert_nodup ha y)

theorem dictLookup_append {V : Type} (d1 d2 : List (Str × V)) (k : Str) :
    dictLookup (d1 ++ d2) k =
      match dictLookup d1 k with
      | some v => some v
      | none => dictLookup d2 k := by
  induction d1 with
  | nil => simp [dictLookup_nil]
  | cons p d ih =>
    rw [List.cons_append, dictLookup_cons, dictLookup_cons]
    by_cases h : p.1 = k
    · simp [h]
    · simp [h, ih]

theorem dictLookup_map_replace {V : Type} (d : List (Str × V)) (k k' : Str) (v : V) :
    dictLookup (d.map (fun p => if p.1 == k then (k, v) else p)) k' =
      if k = k' then (if (dictLookup d k).isSome then some v else none)
      else dictLookup d k' := by
  induction d with
  | nil => by_cases hk : k = k' <;> simp [dictLookup_nil, hk]
  | cons p d ih =>
    simp only [List.map_cons, dictLookup_cons, beq_iff_eq] at ih ⊢
    by_cases hp : p.1 = k
    · by_cases hk : k = k'
      · simp [hp, hk]
      · simp [hp, hk, ih]
    · by_cases hpk' : p.1 = k'
      · have hk : ¬ k = k' := fun h => hp (by rw [h, hpk'])
        have hk'k : ¬ k' = k := fun h => hk h.symm
        simp [hp, hpk', hk, hk'k]
      · simp [hp, hpk', ih]

theorem dictLookup_dictSet {V : Type} (d : List (Str × V)) (k k' : Str) (v : V) :
    dictLookup (dictSet d k v) k' = if k = k' then some v else dictLookup d k' := by
  unfold dictSet
  by_cases hc : dictContains d k = true
  · rw [if_pos hc, dictLookup_map_replace]
    have hs : (dictLookup d k).isSome = true := hc
    simp [hs]
  · rw [if_neg hc, dictLookup_append]
    have hnone : dictLookup d k = none := by
      rcases h : dictLookup d k with _ | w
      · rfl
      · exact absurd (by rw [dictContains, h]; rfl) hc
    by_cases hk : k = k'
    · subst hk
      simp [hnone, dictLookup_cons]
    · rcases h2 : dictLookup d k' with _ | w
      · simp [h2, dictLookup_cons, hk, dictLookup_nil]
      · simp [h2, hk]

theorem mem_keysOf_dictSet {V : Type} (d : List (Str × V)) (k k' : Str) (v : V) :
    k' ∈ keysOf (dictSet d k v) ↔ k' = k ∨ k' ∈ keysOf d := by
  rw [mem_keysOf_iff, mem_keysOf_iff, dictLookup_dictSet]
  by_cases hk : k = k'
  · simp [hk]
  · have hk' : ¬ k' = k := fun h => hk h.symm
    rw [if_neg hk]
    simp [hk']

/-! ## Edge-map lemmas -/

theorem mem_getEdges_iff (g : List (Str × List Str)) (k x : Str) :
    x ∈ getEdges g k ↔ ∃ l, dictLookup g k = some l ∧ x ∈ l := by
  unfold getEdges
  rcases h : dictLookup g k with _ | l
  · simp
  · simp

theorem isSome_of_mem_getEdges {g : List (Str × List Str)} {k x : Str}
    (h : x ∈ getEdges g k) : (dictLookup g k).isSome = true := by
  rcases (mem_getEdges_iff g k x).mp h with ⟨l, hl, _⟩
  rw [hl]; rfl

theorem lookup_none_of_not_contains {V : Type} {d : List (Str × V)} {k : Str}
    (hc : ¬ dictContains d k = true) : dictLookup d k = none := by
  rcases h : dictLookup d k with _ | w
  · rfl
  · exact absurd (by rw [dictContains, h]; rfl) hc

theorem getEdges_ensureKey (d : List (Str × List Str)) (k k' : Str) :
    getEdges (ensureKey d k) k' = getEdges d k' := by
  unfold ensureKey
  by_cases hc : dictContains d k = true
  · rw [if_pos hc]
  · rw [if_neg hc]
    unfold getEdges
    rw [dictLookup_dictSet]
    by_cases hk : k = k'
    · subst hk
      rw [lookup_none_of_not_contains hc]
      simp
    · rw [if_neg hk]

theorem mem_keysOf_ensureKey (d : List (Str × List Str)) (k k' : Str) :
    k' ∈ keysOf (ensureKey d k) ↔ k' = k ∨ k' ∈ keysOf d := by
  unfold ensureKey
  by_cases hc : dictContains d k = true
  · rw [if_pos hc]
    constructor
    · exact Or.inr
    · rintro (rfl | h)
      · exact (dictContains_iff d k').mp hc
      · exact h
  · rw [if_neg hc]
    exact mem_keysOf_dictSet d k k' []

theorem mem_getEdges_addEdge (d : List (Str × List Str)) (k y k' x : Str) :
    x ∈ getEdges (addEdge d k y) k' ↔
      x ∈ getEdges d k' ∨ (k' = k ∧ x = y ∧ k ∈ keysOf d) := by
  unfold addEdge
  rcases h : dictLookup d k with _ | s
  · have hnk : k ∉ keysOf d := by rw [mem_keysOf_iff, h]; simp
    simp [hnk]
  · have hkmem : k ∈ keysOf d := by rw [mem_keysOf_iff, h]; rfl
    by_cases hk : k = k'
    · subst hk
      unfold getEdges
      rw [dictLookup_dictSet, if_pos rfl, h]
      simp only [Option.getD_some]
      rw [mem_ssetInsert]
      simp [hkmem, or_comm]
    · unfold getEdges
      rw [dictLookup_dictSet, if_neg hk]
      have hk' : ¬ k' = k := fun hh => hk hh.symm
      simp [hk']

theorem mem_keysOf_addEdge (d : List (Str × List Str)) (k y k' : Str) :
    k' ∈ keysOf (addEdge d k y) ↔ k' ∈ keysOf d := by
  unfold addEdge
  rcases h : dictLookup d k with _ | s
  · exact Iff.rfl
  · have hkmem : k ∈ keysOf d := by rw [mem_keysOf_iff, h]; rfl
    rw [mem_keysOf_dictSet]
    constructor
    · rintro (rfl | hm)
      · exact hkmem
      · exact hm
    · exact Or.inr

/-! ## Effect of `add_asset` and `add_transformation` on the adjacency maps -/

theorem add_asset_deps_edges (t : Tracker) (a : DataAsset) (k : Str) :
    getEdges (add_asset t a).dependencies k = getEdges t.dependencies k :=
  getEdges_ensureKey t.dependencies (assetKey a) k

theorem add_asset_ds_edges (t : Tracker) (a : DataAsset) (k : Str) :
    getEdges (add_asset t a).downstream k = getEdges t.downstream k :=
  getEdges_ensureKey t.downstream (assetKey a) k

theorem addTransFold_fst_keys (target : Str) (sources : List Str)
    (d s : List (Str × List Str)) (k' : Str) :
    k' ∈ keysOf ((sources.foldl (addTransformationStep target) (d, s)).1) ↔ k' ∈ keysOf d := by
  induction sources generalizing d s with
  | nil => exact Iff.rfl
  | cons src rest ih =>
    rw [List.foldl_cons,
      show addTransformationStep target (d, s) src
        = (addEdge d target src, addEdge (ensureKey s src) src target) from rfl]
    rw [ih, mem_keysOf_addEdge]

theorem addTransFold_snd_keys (target : Str) (sources : List Str)
    (d s : List (Str × List Str)) (k' : Str) :
    k' ∈ keysOf ((sources.foldl (addTransformationStep target) (d, s)).2) ↔
      k' ∈ keysOf s ∨ k' ∈ sources := by
  induction sources generalizing d s with
  | nil => simp
  | cons src rest ih =>
    rw [List.foldl_cons,
      show addTransformationStep target (d, s) src
        = (addEdge d target src, addEdge (ensureKey s src) src target) from rfl]
    rw [ih, mem_keysOf_addEdge, mem_keysOf_ensureKey]
    simp only [List.mem_cons]
    tauto

theorem addTransFold_fst_mem (target : Str) (sources : List Str)
    (d s : List (Str × List Str)) (k x : Str) (htarget : target ∈ keysOf d) :
    x ∈ getEdges ((sources.foldl (addTransformationStep target) (d, s)).1) k ↔
      x ∈ getEdges d k ∨ (k = target ∧ x ∈ sources) := by
  induction sources generalizing d s with
  | nil => simp
  | cons src rest ih =>
    rw [List.foldl_cons,
      show addTransformationStep target (d, s) src
        = (addEdge d target src, addEdge (ensureKey s src) src target) from rfl]
    rw [ih _ _ ((mem_keysOf_addEdge d target src target).mpr htarget),
      mem_getEdges_addEdge]
    simp only [List.mem_cons, htarget, and_true]
    tauto

theorem addTransFold_snd_mem (target : Str) (sources : List Str)
    (d s : List (Str × List Str)) (k x : Str) :
    x ∈ getEdges ((sources.foldl (addTransformationStep target) (d, s)).2) k ↔
      x ∈ getEdges s k ∨ (x = target ∧ k ∈ sources) := by
  induction sources generalizing d s with
  | nil => simp
  | cons src rest ih =>
    rw [List.foldl_cons,
      show addTransformationStep target (d, s) src
        = (addEdge d target src, addEdge (ensureKey s src) src target) from rfl]
    rw [ih, mem_getEdges_addEdge, getEdges_ensureKey]
    have hsrc : src ∈ keysOf (ensureKey s src) :=
      (mem_keysOf_ensureKey s src src).mpr (Or.inl rfl)
    simp only [List.mem_cons, hsrc, and_true]
    tauto

theorem add_transformation_deps_mem (t : Tracker) (tr : DataTransformation) (k x : Str) :
    x ∈ getEdges (add_transformation t tr).dependencies k ↔
      x ∈ getEdges t.dependencies k ∨ (k = tr.target_asset ∧ x ∈ tr.source_assets) := by
  show x ∈ getEdges ((tr.source_assets.foldl (addTransformationStep tr.target_asset)
    (ensureKey t.dependencies tr.target_asset, t.downstream)).1) k ↔ _
  rw [addTransFold_fst_mem _ _ _ _ _ _
    ((mem_keysOf_ensureKey t.dependencies tr.target_asset tr.target_asset).mpr (Or.inl rfl)),
    getEdges_ensureKey]

theorem add_transformation_ds_mem (t : Tracker) (tr : DataTransformation) (k x : Str) :
    x ∈ getEdges (add_transformation t tr).downstream k ↔
      x ∈ getEdges t.downstream k ∨ (x = tr.target_asset ∧ k ∈ tr.source_assets) := by
  show x ∈ getEdges ((tr.source_assets.foldl (addTransformationStep tr.target_asset)
    (ensureKey t.dependencies tr.target_asset, t.downstream)).2) k ↔ _
  rw [addTransFold_snd_mem]

theorem add_transformation_deps_keys (t : Tracker) (tr : DataTransformation) (k : Str) :
    k ∈ keysOf (add_transformation t tr).dependencies ↔
      k = tr.target_asset ∨ k ∈ keysOf t.dependencies := by
  show k ∈ keysOf ((tr.source_assets.foldl (addTransformationStep tr.target_asset)
    (ensureKey t.dependencies tr.target_asset, t.downstream)).1) ↔ _
  rw [addTransFold_fst_keys, mem_keysOf_ensureKey]

theorem add_transformation_ds_keys (t : Tracker) (tr : DataTransformation) (k : Str) :
    k ∈ keysOf (add_transformation t tr).downstream ↔
      k ∈ keysOf t.downstream ∨ k ∈ tr.source_assets := by
  show k ∈ keysOf ((tr.source_assets.foldl (addTransformationStep tr.target_asset)
    (ensureKey t.dependencies tr.target_asset, t.downstream)).2) ↔ _
  rw [addTransFold_snd_keys]

/-! ## Recursive traversal: unfolding, soundness, completeness -/

theorem unvisited_decreases (g : List (Str × List Str)) (visited : List Str) (k : Str)
    (hk : (dictLookup g k).isSome = true) (hv : k ∉ visited) :
    unvisitedCount g (ssetInsert visited k) < unvisitedCount g visited := by
  have hkmem : k ∈ (keysOf g).toFinset :=
    List.mem_toFinset.mpr ((mem_keysOf_iff g k).mpr hk)
  unfold unvisitedCount
  rw [show (ssetInsert visited k).toFinset = insert k visited.toFinset from by
    unfold ssetInsert
    by_cases hx : k ∈ visited
    · simp [hx, List.mem_toFinset, Finset.insert_eq_self.mpr]
    · simp [hx, Finset.insert_eq, Finset.union_comm]]
  apply Finset.card_lt_card
  constructor
  · exact Finset.sdiff_subset_sdiff le_rfl (Finset.subset_insert k _)
  · intro hsub
    have h2 := hsub (Finset.mem_sdiff.mpr ⟨hkmem, by simpa [List.mem_toFinset] using hv⟩)
    simp [Finset.mem_sdiff] at h2

theorem closure_visited (g : List (Str × List Str)) (asset : Str) (visited : List Str)
    (h : asset ∈ visited) : closure g asset visited = [] := by
  rw [closure, dif_pos h]

theorem mem_foldl_sunion {α : Type} (f : α → List Str) (l : List α) (init : List Str) (x : Str) :
    x ∈ l.foldl (fun acc p => sunion acc (f p)) init ↔ x ∈ init ∨ ∃ p ∈ l, x ∈ f p := by
  induction l generalizing init with
  | nil => simp
  | cons a l ih =>
    rw [List.foldl_cons, ih, mem_sunion]
    simp only [List.mem_cons]
    constructor
    · rintro ((h | h) | ⟨p, hp, hx⟩)
      · exact Or.inl h
      · exact Or.inr ⟨a, Or.inl rfl, h⟩
      · exact Or.inr ⟨p, Or.inr hp, hx⟩
    · rintro (h | ⟨p, (rfl | hp), hx⟩)
      · exact Or.inl (Or.inl h)
      · exact Or.inl (Or.inr hx)
      · exact Or.inr ⟨p, hp, hx⟩

theorem foldl_sunion_nodup {α : Type} (f : α → List Str) (l : List α) {init : List Str}
    (h : init.Nodup) : (l.foldl (fun acc p => sunion acc (f p)) init).Nodup := by
  induction l generalizing init with
  | nil => exact h
  | cons a l ih =>
    rw [List.foldl_cons]
    exact ih (sunion_nodup h (f a))

theorem mem_closure_iff (g : List (Str × List Str)) (asset : Str) (visited : List Str)
    (hv : asset ∉ visited) (x : Str) :
    x ∈ closure g asset visited ↔
      x ∈ getEdges g asset ∨
        ∃ d ∈ getEdges g asset, x ∈ closure g d (ssetInsert visited asset) := by
  conv_lhs => rw [closure]
  rw [dif_neg hv]
  split
  next h =>
    unfold getEdges
    rw [h]
    simp
  next direct h =>
    unfold getEdges
    rw [h]
    simp only [Option.getD_some]
    rw [mem_foldl_sunion (fun (d : {y // y ∈ direct}) => closure g d.1 (ssetInsert visited asset)),
      mem_sunion]
    simp only [List.not_mem_nil, false_or]
    constructor
    · rintro (hx | ⟨p, hp, hx⟩)
      · exact Or.inl hx
      · exact Or.inr ⟨p.1, p.2, hx⟩
    · rintro (hx | ⟨d, hd, hx⟩)
      · exact Or.inl hx
      · exact Or.inr ⟨⟨d, hd⟩, List.mem_attach _ _, hx⟩

theorem closure_nodup (g : List (Str × List Str)) (asset : Str) (visited : List Str) :
    (closure g asset visited).Nodup := by
  rw [closure]
  split
  · exact List.nodup_nil
  · split
    · exact List.nodup_nil
    · exact foldl_sunion_nodup _ _ (sunion_nodup List.nodup_nil _)

theorem closure_sound (g : List (Str × List Str)) :
    ∀ (n : Nat) (visited : List Str) (asset x : Str), unvisitedCount g visited = n →
      x ∈ closure g asset visited → ∃ mid, IsPath g asset mid x := by
  intro n
  induction n using Nat.strong_induction_on with
  | _ n ih =>
    intro visited asset x hn hx
    by_cases hv : asset ∈ visited
    · rw [closure_visited g asset visited hv] at hx
      simp at hx
    · rcases (mem_closure_iff g asset visited hv x).mp hx with h | ⟨d, hd, hdx⟩
      · exact ⟨[], IsPath.single h⟩
      · have hlt : unvisitedCount g (ssetInsert visited asset) < n :=
          hn ▸ unvisited_decreases g visited asset (isSome_of_mem_getEdges hd) hv
        rcases ih _ hlt (ssetInsert visited asset) d x rfl hdx with ⟨mid, hp⟩
        exact ⟨d :: mid, IsPath.cons hd hp⟩

theorem isPath_last_mem {g : List (Str × List Str)} {a : Str} {mid : List Str} {x : Str}
    (h : IsPath g a mid x) : ∃ u, x ∈ getEdges g u := by
  induction h with
  | single h => exact ⟨_, h⟩
  | cons h hp ih => exact ih

theorem mem_getEdges_exists_entry {g : List (Str × List Str)} {u x : Str}
    (h : x ∈ getEdges g u) : ∃ p ∈ g, x ∈ p.2 := by
  rcases (mem_getEdges_iff g u x).mp h with ⟨l, hl, hx⟩
  unfold dictLookup at hl
  rcases Option.map_eq_some'.mp hl with ⟨p, hp, hpl⟩
  exact ⟨p, List.mem_of_find?_eq_some hp, hpl ▸ hx⟩

theorem isPath_suffix {g : List (Str × List Str)} {a : Str} :
    ∀ {y : Str} {mid : List Str} {x : Str}, IsPath g y mid x → a ∈ y :: mid →
      ∃ mid2, IsPath g a mid2 x ∧ mid2.length ≤ mid.length ∧ ∀ v ∈ mid2, v ∈ mid := by
  intro y mid x h
  induction h with
  | single hy =>
    intro ha
    rcases List.mem_singleton.mp ha with rfl
    exact ⟨[], IsPath.single hy, le_rfl, by simp⟩
  | cons hy hp ih =>
    intro ha
    rcases List.mem_cons.mp ha with rfl | ha2
    · exact ⟨_, IsPath.cons hy hp, le_rfl, fun v hv => hv⟩
    · rcases ih ha2 with ⟨mid2, hp2, hlen, hsub⟩
      exact ⟨mid2, hp2, Nat.le_succ_of_le hlen,
        fun v hv => List.mem_cons_of_mem _ (hsub v hv)⟩

theorem closure_complete (g : List (Str × List Str)) :
    ∀ (n : Nat) (mid : List Str) (asset x : Str) (visited : List Str), mid.length ≤ n →
      IsPath g asset mid x → (∀ v ∈ asset :: mid, v ∉ visited) →
      x ∈ closure g asset visited := by
  intro n
  induction n with
  | zero =>
    intro mid asset x visited hlen hp havoid
    have hmid : mid = [] := List.length_eq_zero.mp (Nat.le_zero.mp hlen)
    subst hmid
    have hv : asset ∉ visited := havoid asset (List.mem_cons_self _ _)
    cases hp with
    | single h => exact (mem_closure_iff g asset visited hv x).mpr (Or.inl h)
  | succ n ih =>
    intro mid asset x visited hlen hp havoid
    have hv : asset ∉ visited := havoid asset (List.mem_cons_self _ _)
    rcases mid with _ | ⟨y, mid'⟩
    · cases hp with
      | single h => exact (mem_closure_iff g asset visited hv x).mpr (Or.inl h)
    · have hlen' : mid'.length ≤ n := by
        simp only [List.length_cons] at hlen
        omega
      cases hp with
      | cons hy hp2 =>
        by_cases hcase : asset ∈ y :: mid'
        · rcases isPath_suffix hp2 hcase with ⟨mid2, hp3, hlen2, hsub⟩
          apply ih mid2 asset x visited (le_trans hlen2 hlen') hp3
          intro v hv2
          rcases List.mem_cons.mp hv2 with rfl | hv3
          · exact hv
          · exact havoid v (List.mem_cons_of_mem _ (List.mem_cons_of_mem _ (hsub v hv3)))
        · apply (mem_closure_iff g asset visited hv x).mpr
          refine Or.inr ⟨y, hy, ?_⟩
          apply ih mid' y x (ssetInsert visited asset) hlen' hp2
          intro v hv2
          rw [mem_ssetInsert]
          rintro (rfl | hvv)
          · exact hcase hv2
          · exact havoid v (List.mem_cons_of_mem _ hv2) hvv

theorem isPath_snoc {g : List (Str × List Str)} {a : Str} {mid : List Str} {b x : Str}
    (h : IsPath g a mid b) (hx : x ∈ getEdges g b) : IsPath g a (mid ++ [b]) x := by
  induction h with
  | single hy => exact IsPath.cons hy (IsPath.single hx)
  | cons hy hp ih => exact IsPath.cons hy (ih hx)

theorem isPath_iff_transGen (g : List (Str × List Str)) (a x : Str) :
    (∃ mid, IsPath g a mid x) ↔ Relation.TransGen (edgeRel g) a x := by
  constructor
  · rintro ⟨mid, h⟩
    induction h with
    | single hy => exact Relation.TransGen.single hy
    | cons hy hp ih => exact Relation.TransGen.head hy ih
  · intro h
    induction h with
    | single hy => exact ⟨[], IsPath.single hy⟩
    | tail hab hbx ih =>
      rcases ih with ⟨mid, hp⟩
      exact ⟨_, isPath_snoc hp hbx⟩

theorem mem_closure_iff_transGen (g : List (Str × List Str)) (a x : Str) :
    x ∈ closure g a [] ↔ Relation.TransGen (edgeRel g) a x := by
  constructor
  · intro h
    exact (isPath_iff_transGen g a x).mp (closure_sound g (unvisitedCount g []) [] a x rfl h)
  · intro h
    rcases (isPath_iff_transGen g a x).mpr h with ⟨mid, hp⟩
    exact closure_complete g mid.length mid a x [] le_rfl hp (by simp)

/-! ## Depth-first path search -/

theorem foldl_firstSome_keep {α : Type} (f : α → Option (List Str)) (l : List α) (r : List Str) :
    l.foldl (fun acc p => match acc with | some s => some s | none => f p) (some r) = some r := by
  induction l with
  | nil => rfl
  | cons a l ih =>
    rw [List.foldl_cons]
    exact ih

theorem foldl_firstSome_eq_none_iff {α : Type} (f : α → Option (List Str)) (l : List α) :
    l.foldl (fun acc p => match acc with | some s => some s | none => f p) none = none ↔
      ∀ p ∈ l, f p = none := by
  induction l with
  | nil => simp
  | cons a l ih =>
    rw [List.foldl_cons,
      show (match (none : Option (List Str)) with
        | some s => some s | none => f a) = f a from rfl]
    rcases h : f a with _ | r
    · rw [ih]
      constructor
      · intro hall p hp
        rcases List.mem_cons.mp hp with rfl | hp2
        · exact h
        · exact hall p hp2
      · intro hall p hp
        exact hall p (List.mem_cons_of_mem _ hp)
    · rw [foldl_firstSome_keep]
      constructor
      · intro hc
        cases hc
      · intro hall
        have h2 := hall a (List.mem_cons_self _ _)
        rw [h] at h2
        cases h2

theorem foldl_firstSome_eq_some {α : Type} (f : α → Option (List Str)) (l : List α)
    (r : List Str)
    (h : l.foldl (fun acc p => match acc with | some s => some s | none => f p) none = some r) :
    ∃ p ∈ l, f p = some r := by
  induction l with
  | nil => cases h
  | cons a l ih =>
    rw [List.foldl_cons,
      show (match (none : Option (List Str)) with
        | some s => some s | none => f a) = f a from rfl] at h
    rcases ha : f a with _ | s
    · rw [ha] at h
      rcases ih h with ⟨p, hp, hf⟩
      exact ⟨p, List.mem_cons_of_mem _ hp, hf⟩
    · rw [ha, foldl_firstSome_keep] at h
      have hsr := Option.some.inj h
      subst hsr
      exact ⟨a, List.mem_cons_self _ _, ha⟩

theorem findPath_self (g : List (Str × List Str)) (current : Str) (path visited : List Str) :
    findPath g current current path visited = some (path ++ [current]) := by
  rw [findPath]
  simp

theorem findPath_visited (g : List (Str × List Str)) {current target : Str}
    (path : List Str) {visited : List Str} (hne : current ≠ target) (hv : current ∈ visited) :
    findPath g current target path visited = none := by
  rw [findPath, if_neg (by simpa using hne), dif_pos hv]

theorem findPath_unfold (g : List (Str × List Str)) {current target : Str}
    (path : List Str) {visited : List Str} (hne : current ≠ target) (hv : current ∉ visited) :
    findPath g current target path visited =
      (getEdges g current).attach.foldl
        (fun acc d => match acc with
          | some r => some r
          | none => findPath g d.1 target (path ++ [current]) (ssetInsert visited current))
        none := by
  conv_lhs => rw [findPath]
  rw [if_neg (by simpa using hne), dif_neg hv]
  split
  next h =>
    unfold getEdges
    rw [h]
    rfl
  next ds h =>
    unfold getEdges
    rw [h]
    rfl

theorem findPath_sound (g : List (Str × List Str)) (target : Str) :
    ∀ (n : Nat) (visited : List Str) (current : Str) (path r : List Str),
      unvisitedCount g visited = n →
      findPath g current target path visited = some r →
      ∃ s, r = path ++ s ∧ s ≠ [] ∧ s.head? = some current ∧ s.getLast? = some target ∧
        List.Chain' (edgeRel g) s := by
  intro n
  induction n using Nat.strong_induction_on with
  | _ n ih =>
    intro visited current path r hn hres
    by_cases heq : current = target
    · subst heq
      rw [findPath_self] at hres
      have hr := Option.some.inj hres
      exact ⟨[current], hr.symm, by simp, by simp, by simp, List.chain'_singleton current⟩
    · by_cases hv : current ∈ visited
      · rw [findPath_visited g path heq hv] at hres
        cases hres
      · rw [findPath_unfold g path heq hv] at hres
        rcases foldl_firstSome_eq_some _ _ r hres with ⟨d, hd, hf⟩
        have hlt : unvisitedCount g (ssetInsert visited current) < n :=
          hn ▸ unvisited_decreases g visited current (isSome_of_mem_getEdges d.2) hv
        rcases ih _ hlt (ssetInsert visited current) d.1 (path ++ [current]) r rfl hf with
          ⟨s', hr, hne', hh, hl, hch⟩
        refine ⟨current :: s', ?_, by simp, rfl, ?_, ?_⟩
        · rw [hr, List.append_assoc, List.singleton_append]
        · rcases s' with _ | ⟨b, l⟩
          · exact absurd rfl hne'
          · rw [List.getLast?_cons_cons]
            exact hl
        · rw [List.chain'_cons']
          constructor
          · intro y hy
            rw [hh] at hy
            have hyd := Option.some.inj hy
            subst hyd
            exact d.2
          · exact hch

theorem findPath_isSome (g : List (Str × List Str)) (target : Str) :
    ∀ (n : Nat) (mid : List Str) (current : Str) (visited path : List Str),
      mid.length ≤ n →
      (current = target ∨
        (IsPath g current mid target ∧ ∀ v ∈ current :: mid, v ∉ visited)) →
      (findPath g current target path visited).isSome = true := by
  intro n
  induction n with
  | zero =>
    intro mid current visited path hlen hcase
    rcases hcase with rfl | ⟨hp, havoid⟩
    · rw [findPath_self]
      rfl
    · have hmid : mid = [] := List.length_eq_zero.mp (Nat.le_zero.mp hlen)
      subst hmid
      by_cases heq : current = target
      · subst heq
        rw [findPath_self]
        rfl
      · cases hp with
        | single h =>
          have hv : current ∉ visited := havoid current (List.mem_cons_self _ _)
          rw [findPath_unfold g path heq hv]
          rcases hfold : (getEdges g current).attach.foldl
            (fun acc d => match acc with
              | some r => some r
              | none => findPath g d.1 target (path ++ [current]) (ssetInsert visited current))
            none with _ | r
          · exfalso
            have hall := (foldl_firstSome_eq_none_iff _ _).mp hfold
            have h2 := hall ⟨target, h⟩ (List.mem_attach _ _)
            rw [findPath_self] at h2
            cases h2
          · rw [hfold]
            rfl
  | succ n ih =>
    intro mid current visited path hlen hcase
    rcases hcase with rfl | ⟨hp, havoid⟩
    · rw [findPath_self]
      rfl
    · by_cases heq : current = target
      · subst heq
        rw [findPath_self]
        rfl
      · have hv : current ∉ visited := havoid current (List.mem_cons_self _ _)
        rw [findPath_unfold g path heq hv]
        rcases hfold : (getEdges g current).attach.foldl
          (fun acc d => match acc with
            | some r => some r
            | none => findPath g d.1 target (path ++ [current]) (ssetInsert visited current))
          none with _ | r
        · exfalso
          have hall := (foldl_firstSome_eq_none_iff _ _).mp hfold
          rcases mid with _ | ⟨y, mid'⟩
          · cases hp with
            | single h =>
              have h2 := hall ⟨target, h⟩ (List.mem_attach _ _)
              rw [findPath_self] at h2
              cases h2
          · have hlen' : mid'.length ≤ n := by
              simp only [List.length_cons] at hlen
              omega
            cases hp with
            | cons hy hp2 =>
              by_cases hcase2 : current ∈ y :: mid'
              · rcases isPath_suffix hp2 hcase2 with ⟨mid2, hp3, hlen2, hsub⟩
                have h3 := ih mid2 current visited path (le_trans hlen2 hlen')
                  (Or.inr ⟨hp3, ?_⟩)
                · rw [findPath_unfold g path heq hv, hfold] at h3
                  cases h3
                · intro v hv2
                  rcases List.mem_cons.mp hv2 with rfl | hv3
                  · exact hv
                  · exact havoid v
                      (List.mem_cons_of_mem _ (List.mem_cons_of_mem _ (hsub v hv3)))
              · have h3 := ih mid' y (ssetInsert visited current) (path ++ [current]) hlen'
                  (Or.inr ⟨hp2, ?_⟩)
                · have h4 := hall ⟨y, hy⟩ (List.mem_attach _ _)
                  rw [h4] at h3
                  cases h3
                · intro v hv2
                  rw [mem_ssetInsert]
                  rintro (rfl | hvv)
                  · exact hcase2 hv2
                  · exact havoid v (List.mem_cons_of_mem _ hv2) hvv
        · rw [hfold]
          rfl

theorem chain'_head_getLast {r : Str → Str → Prop} :
    ∀ (s : List Str) (a b : Str), List.Chain' r s → s.head? = some a → s.getLast? = some b →
      Relation.ReflTransGen r a b := by
  intro s
  induction s with
  | nil =>
    intro a b _ hh _
    cases hh
  | cons c s ih =>
    intro a b hch hh hl
    have hc : c = a := by simpa using hh
    subst hc
    rcases s with _ | ⟨d, s'⟩
    · have hb : c = b := by simpa using hl
      subst hb
      exact Relation.ReflTransGen.refl
    · rw [List.getLast?_cons_cons] at hl
      rw [List.chain'_cons] at hch
      exact Relation.ReflTransGen.head hch.1 (ih d b hch.2 rfl hl)

/-! ## Monotonicity of the adjacency maps under producer calls -/

theorem applyOp_deps_mono {t : Tracker} {k x : Str} (o : Op)
    (h : x ∈ getEdges t.dependencies k) : x ∈ getEdges (applyOp t o).dependencies k := by
  cases o with
  | asset a =>
    rw [show applyOp t (Op.asset a) = add_asset t a from rfl, add_asset_deps_edges]
    exact h
  | transform tr =>
    exact (add_transformation_deps_mem t tr k x).mpr (Or.inl h)

theorem applyOp_ds_mono {t : Tracker} {k x : Str} (o : Op)
    (h : x ∈ getEdges t.downstream k) : x ∈ getEdges (applyOp t o).downstream k := by
  cases o with
  | asset a =>
    rw [show applyOp t (Op.asset a) = add_asset t a from rfl, add_asset_ds_edges]
    exact h
  | transform tr =>
    exact (add_transformation_ds_mem t tr k x).mpr (Or.inl h)

theorem applyOps_deps_mono {t : Tracker} {k x : Str} (ops : List Op)
    (h : x ∈ getEdges t.dependencies k) : x ∈ getEdges (applyOps t ops).dependencies k := by
  induction ops generalizing t with
  | nil => exact h
  | cons o ops ih =>
    rw [applyOps, List.foldl_cons]
    exact ih (applyOp_deps_mono o h)

theorem applyOps_ds_mono {t : Tracker} {k x : Str} (ops : List Op)
    (h : x ∈ getEdges t.downstream k) : x ∈ getEdges (applyOps t ops).downstream k := by
  induction ops generalizing t with
  | nil => exact h
  | cons o ops ih =>
    rw [applyOps, List.foldl_cons]
    exact ih (applyOp_ds_mono o h)

/-! ## Claim theorems -/

/-- C1: for every transformation `T` with target `t` and source list `S`, after
`add_transformation(T)` — and after any further `add_asset`/`add_transformation`
calls — every `s ∈ S` is in `dependencies[t]` and `t` is in `downstream[s]`. -/
theorem claim1_edge_invariant (t : Tracker) (tr : DataTransformation) (ops : List Op)
    (s : Str) (hne : tr.source_assets ≠ []) (hs : s ∈ tr.source_assets) :
    s ∈ getEdges (applyOps (add_transformation t tr) ops).dependencies tr.target_asset ∧
    tr.target_asset ∈ getEdges (applyOps (add_transformation t tr) ops).downstream s :=
  ⟨applyOps_deps_mono ops
      ((add_transformation_deps_mem t tr tr.target_asset s).mpr (Or.inr ⟨rfl, hs⟩)),
    applyOps_ds_mono ops
      ((add_transformation_ds_mem t tr s tr.target_asset).mpr (Or.inr ⟨rfl, hs⟩))⟩

/-- Witness for C1 at the spec's walkthrough scenario, with one further
`add_asset` call after the transformation. -/
theorem claim1_edge_invariant_witness :
    sampleTransformation.source_assets ≠ [] ∧
    "bronze.t1" ∈ sampleTransformation.source_assets ∧
    ("bronze.t1" ∈ getEdges (applyOps (add_transformation
        (add_asset (add_asset emptyTracker bronzeT1) silverT1) sampleTransformation)
        [Op.asset bronzeT1]).dependencies sampleTransformation.target_asset ∧
      sampleTransformation.target_asset ∈ getEdges (applyOps (add_transformation
        (add_asset (add_asset emptyTracker bronzeT1) silverT1) sampleTransformation)
        [Op.asset bronzeT1]).downstream "bronze.t1") :=
  ⟨by decide, by decide,
    claim1_edge_invariant (add_asset (add_asset emptyTracker bronzeT1) silverT1)
      sampleTransformation [Op.asset bronzeT1] "bronze.t1" (by decide) (by decide)⟩

/-- C3: for every tracker state — cyclic adjacency maps included — both traversal
queries return duplicate-free (hence finite) lists whose members all occur as edge
targets in the corresponding adjacency map; termination itself is witnessed by
`closure` being a total function (well-founded on the unvisited key count). -/
theorem claim3_traversal_terminates_and_is_bounded (t : Tracker) (a : Str) :
    ((get_upstream_dependencies t a).Nodup ∧
      ∀ x ∈ get_upstream_dependencies t a, ∃ p ∈ t.dependencies, x ∈ p.2) ∧
    ((get_downstream_impact t a).Nodup ∧
      ∀ x ∈ get_downstream_impact t a, ∃ p ∈ t.downstream, x ∈ p.2) := by
  refine ⟨⟨closure_nodup _ _ _, ?_⟩, ⟨closure_nodup _ _ _, ?_⟩⟩
  · intro x hx
    rcases closure_sound t.dependencies (unvisitedCount t.dependencies []) [] a x rfl hx with
      ⟨mid, hp⟩
    rcases isPath_last_mem hp with ⟨u, hu⟩
    exact mem_getEdges_exists_entry hu
  · intro x hx
    rcases closure_sound t.downstream (unvisitedCount t.downstream []) [] a x rfl hx with
      ⟨mid, hp⟩
    rcases isPath_last_mem hp with ⟨u, hu⟩
    exact mem_getEdges_exists_entry hu

/-- Witness for C3 on a cyclic tracker (`bronze.t1 → silver.t1` and back): the
inner membership hypothesis is discharged at a concrete element. -/
theorem claim3_traversal_terminates_and_is_bounded_witness :
    ((get_upstream_dependencies
        (add_transformation sampleTracker
          ⟨["silver.t1"], "bronze.t1", "etl", "copy", "2024-01-01", "etl"⟩)
        "silver.t1").Nodup ∧
      ∃ p ∈ (add_transformation sampleTracker
          ⟨["silver.t1"], "bronze.t1", "etl", "copy", "2024-01-01", "etl"⟩).dependencies,
        "bronze.t1" ∈ p.2) :=
  ⟨(claim3_traversal_terminates_and_is_bounded
      (add_transformation sampleTracker
        ⟨["silver.t1"], "bronze.t1", "etl", "copy", "2024-01-01", "etl"⟩) "silver.t1").1.1,
    (claim3_traversal_terminates_and_is_bounded
      (add_transformation sampleTracker
        ⟨["silver.t1"], "bronze.t1", "etl", "copy", "2024-01-01", "etl"⟩) "silver.t1").1.2
      "bronze.t1"
      ((mem_closure_iff _ "silver.t1" [] (by simp) "bronze.t1").mpr
        (Or.inl (by decide)))⟩

/-- C4: `get_upstream_dependencies` computes exactly the transitive closure of the
`dependencies` edges from `a`, and `get_downstream_impact` exactly the transitive
closure of the `downstream` edges. -/
theorem claim4_queries_compute_transitive_closure (t : Tracker) (a x : Str) :
    (x ∈ get_upstream_dependencies t a ↔ Relation.TransGen (edgeRel t.dependencies) a x) ∧
    (x ∈ get_downstream_impact t a ↔ Relation.TransGen (edgeRel t.downstream) a x) :=
  ⟨mem_closure_iff_transGen t.dependencies a x, mem_closure_iff_transGen t.downstream a x⟩

/-- C10: `get_lineage_path(a, a) = [a]` for every string `a`, registered or not —
the target-equality test precedes the visited check and the edge lookup. -/
theorem claim10_self_path (t : Tracker) (a : Str) : get_lineage_path t a a = [a] := by
  unfold get_lineage_path
  rw [findPath_self]
  rfl

/-- C5: `get_lineage_path` returns the empty list exactly when `target` is not
reachable from `source` along `downstream` edges (reflexively-transitively: the
path `[source]` itself counts when `source = target`); a non-empty result starts
at `source`, ends at `target`, and steps only along `downstream` edges.  On the
spec's walkthrough scenario the result is `["bronze.t1", "silver.t1"]`. -/
theorem claim5_lineage_path_correct (t : Tracker) (source target : Str) :
    (get_lineage_path t source target = [] ↔
      ¬ Relation.ReflTransGen (edgeRel t.downstream) source target) ∧
    (get_lineage_path t source target = [] ∨
      ((get_lineage_path t source target).head? = some source ∧
        (get_lineage_path t source target).getLast? = some target ∧
        List.Chain' (edgeRel t.downstream) (get_lineage_path t source target))) ∧
    get_lineage_path sampleTracker "bronze.t1" "silver.t1" = ["bronze.t1", "silver.t1"] := by
  refine ⟨?_, ?_, ?_⟩ <;> try unfold get_lineage_path
  case _ =>
    rcases h : findPath t.downstream source target [] [] with _ | r
    · constructor
      · intro _ hreach
        rcases Relation.reflTransGen_iff_eq_or_transGen.mp hreach with heq | htg
        · rw [heq, findPath_self] at h
          cases h
        · rcases (isPath_iff_transGen t.downstream source target).mpr htg with ⟨mid, hp⟩
          have hs := findPath_isSome t.downstream target mid.length mid source [] []
            le_rfl (Or.inr ⟨hp, by simp⟩)
          rw [h] at hs
          cases hs
      · intro _
        rfl
    · simp only [Option.getD_some]
      rcases findPath_sound t.downstream target (unvisitedCount t.downstream []) [] source
        [] r rfl h with ⟨s, hr, hne, hh, hl, hch⟩
      rw [List.nil_append] at hr
      rw [hr]
      constructor
      · intro he
        exact absurd he hne
      · intro hnreach
        exact absurd (chain'_head_getLast s source target hch hh hl) hnreach
  case _ =>
    rcases h : findPath t.downstream source target [] [] with _ | r
    · exact Or.inl rfl
    · simp only [Option.getD_some]
      rcases findPath_sound t.downstream target (unvisitedCount t.downstream []) [] source
        [] r rfl h with ⟨s, hr, hne, hh, hl, hch⟩
      rw [List.nil_append] at hr
      rw [hr]
      exact Or.inr ⟨hh, hl, hch⟩
  case _ =>
    rw [findPath_unfold sampleTracker.downstream [] (by decide) (by simp),
      show getEdges sampleTracker.downstream "bronze.t1" = ["silver.t1"] from by decide,
      show (["silver.t1"] : List Str).attach = [⟨"silver.t1", by simp⟩] from rfl,
      List.foldl_cons, List.foldl_nil]
    show (findPath sampleTracker.downstream "silver.t1" "silver.t1"
      ([] ++ ["bronze.t1"]) (ssetInsert [] "bronze.t1")).getD [] = ["bronze.t1", "silver.t1"]
    rw [findPath_self]
    rfl

/-! ## Impact analysis -/

theorem riskAssess_fields (changed : List Str) (p : List Str × List AffectedTransformation) :
    (riskAssess changed p).affected_assets = p.1 ∧
    (riskAssess changed p).affected_transformations = p.2 ∧
    (riskAssess changed p).changed_assets = changed := by
  unfold riskAssess
  split_ifs <;> exact ⟨rfl, rfl, rfl⟩

theorem riskAssess_risk (changed : List Str) (p : List Str × List AffectedTransformation) :
    ((riskAssess changed p).risk_level = "HIGH" ↔
      (10 < p.1.length ∨ 5 < p.2.length)) ∧
    ((riskAssess changed p).risk_level = "MEDIUM" ↔
      (¬ (10 < p.1.length ∨ 5 < p.2.length) ∧ (5 < p.1.length ∨ 2 < p.2.length))) ∧
    ((riskAssess changed p).risk_level = "LOW" ↔
      (¬ (10 < p.1.length ∨ 5 < p.2.length) ∧ ¬ (5 < p.1.length ∨ 2 < p.2.length))) ∧
    (riskAssess changed p).recommendations.length =
      (if 10 < p.1.length ∨ 5 < p.2.length then 2
        else if 5 < p.1.length ∨ 2 < p.2.length then 1 else 0) := by
  unfold riskAssess
  split_ifs with h1 h2
  · refine ⟨by simp [h1], ?_, ?_, rfl⟩
    · constructor
      · intro hs
        exact absurd hs (show ("HIGH" : Str) ≠ "MEDIUM" from by decide)
      · rintro ⟨hn, _⟩
        exact absurd h1 hn
    · constructor
      · intro hs
        exact absurd hs (show ("HIGH" : Str) ≠ "LOW" from by decide)
      · rintro ⟨hn, _⟩
        exact absurd h1 hn
  · refine ⟨?_, by simp [h1, h2], ?_, rfl⟩
    · constructor
      · intro hs
        exact absurd hs (show ("MEDIUM" : Str) ≠ "HIGH" from by decide)
      · intro hcond
        exact absurd hcond h1
    · constructor
      · intro hs
        exact absurd hs (show ("MEDIUM" : Str) ≠ "LOW" from by decide)
      · rintro ⟨_, hn⟩
        exact absurd h2 hn
  · refine ⟨?_, ?_, by simp [h1, h2], rfl⟩
    · constructor
      · intro hs
        exact absurd hs (show ("LOW" : Str) ≠ "HIGH" from by decide)
      · intro hcond
        exact absurd hcond h1
    · constructor
      · intro hs
        exact absurd hs (show ("LOW" : Str) ≠ "MEDIUM" from by decide)
      · rintro ⟨_, hcond⟩
        exact absurd hcond h2

theorem impact_fold_snd (t : Tracker) (changed : List Str) :
    ∀ (A : List Str) (B : List AffectedTransformation),
      (changed.foldl (impactStep t) (A, B)).2 =
        B ++ changed.flatMap (fun a =>
          (t.transformations.filter (fun tr => decide (a ∈ tr.source_assets))).map
            (fun tr => ⟨tr.target_asset, tr.transformation_type, a⟩)) := by
  induction changed with
  | nil =>
    intro A B
    simp
  | cons a changed ih =>
    intro A B
    rw [List.foldl_cons,
      show impactStep t (A, B) a = (sunion A (get_downstream_impact t a),
        B ++ (t.transformations.filter (fun tr => decide (a ∈ tr.source_assets))).map
          (fun tr => ⟨tr.target_asset, tr.transformation_type, a⟩)) from rfl,
      ih, List.flatMap_cons, List.append_assoc]

theorem analyze_impact_affected (t : Tracker) (changed : List Str) :
    (analyze_impact t changed).affected_transformations =
      changed.flatMap (fun a =>
        (t.transformations.filter (fun tr => decide (a ∈ tr.source_assets))).map
          (fun tr => ⟨tr.target_asset, tr.transformation_type, a⟩)) := by
  rw [show analyze_impact t changed
      = riskAssess changed (changed.foldl (impactStep t) ([], [])) from rfl,
    (riskAssess_fields changed _).2.1, impact_fold_snd]
  rfl

theorem sum_map_add {α : Type} (f g : α → Nat) (l : List α) :
    (l.map (fun x => f x + g x)).sum = (l.map f).sum + (l.map g).sum := by
  induction l with
  | nil => rfl
  | cons x l ih =>
    simp only [List.map_cons, List.sum_cons, ih]
    omega

theorem length_filter_eq_sum {α : Type} (p : α → Bool) (l : List α) :
    (l.filter p).length = (l.map (fun x => if p x then 1 else 0)).sum := by
  induction l with
  | nil => rfl
  | cons x l ih =>
    by_cases h : p x = true <;> simp [List.filter_cons, h, ih] <;> omega

theorem sum_filter_comm {α β : Type} (A : List α) (B : List β) (p : α → β → Bool) :
    (A.map (fun a => (B.filter (p a)).length)).sum =
      (B.map (fun b => (A.filter (fun a => p a b)).length)).sum := by
  induction A with
  | nil => simp
  | cons a A ih =>
    simp only [List.map_cons, List.sum_cons, ih]
    rw [show (B.map fun b => ((a :: A).filter fun a' => p a' b).length)
        = (B.map fun b => (if p a b then 1 else 0) + (A.filter (fun a' => p a' b)).length)
      from List.map_congr_left (fun b _ => by
        by_cases h : p a b = true <;> simp [List.filter_cons, h] <;> omega)]
    rw [sum_map_add, ← length_filter_eq_sum]

/-- C6: risk classification evaluated first-match (`HIGH` over `MEDIUM` over `LOW`),
with the documented thresholds over the output's own affected counts, and exactly
2 / 1 / 0 recommendation entries per tier; on an empty input everything is empty
and the risk is `LOW`. -/
theorem claim6_risk_classification (t : Tracker) (changed : List Str) :
    ((analyze_impact t changed).risk_level = "HIGH" ↔
      (10 < (analyze_impact t changed).affected_assets.length ∨
        5 < (analyze_impact t changed).affected_transformations.length)) ∧
    ((analyze_impact t changed).risk_level = "MEDIUM" ↔
      (¬ (10 < (analyze_impact t changed).affected_assets.length ∨
          5 < (analyze_impact t changed).affected_transformations.length) ∧
        (5 < (analyze_impact t changed).affected_assets.length ∨
          2 < (analyze_impact t changed).affected_transformations.length))) ∧
    ((analyze_impact t changed).risk_level = "LOW" ↔
      (¬ (10 < (analyze_impact t changed).affected_assets.length ∨
          5 < (analyze_impact t changed).affected_transformations.length) ∧
        ¬ (5 < (analyze_impact t changed).affected_assets.length ∨
          2 < (analyze_impact t changed).affected_transformations.length))) ∧
    (analyze_impact t changed).recommendations.length =
      (if 10 < (analyze_impact t changed).affected_assets.length ∨
          5 < (analyze_impact t changed).affected_transformations.length then 2
        else if 5 < (analyze_impact t changed).affected_assets.length ∨
          2 < (analyze_impact t changed).affected_transformations.length then 1 else 0) ∧
    analyze_impact t [] = ⟨[], [], [], "LOW", []⟩ := by
  have hfields := riskAssess_fields changed (changed.foldl (impactStep t) ([], []))
  have hrisk := riskAssess_risk changed (changed.foldl (impactStep t) ([], []))
  rw [show analyze_impact t changed
    = riskAssess changed (changed.foldl (impactStep t) ([], [])) from rfl,
    hfields.1, hfields.2.1]
  exact ⟨hrisk.1, hrisk.2.1, hrisk.2.2.1, hrisk.2.2.2, rfl⟩

/-- C7 counterexample: `strayTracker` logs exactly one transformation with the
single source `"a"`, so the changed list `["a", "a"]` gives exactly one
(logged transformation, triggering source) pair, yet two identical records are
produced — one per occurrence of `"a"` in the input, not one per pair. -/
theorem claim7_counterexample :
    strayTracker.transformations = [strayTransformation] ∧
    strayTransformation.source_assets = ["a"] ∧
    (analyze_impact strayTracker ["a", "a"]).affected_transformations =
      [⟨"b", "etl", "a"⟩, ⟨"b", "etl", "a"⟩] := by
  refine ⟨by decide, by decide, ?_⟩
  rw [analyze_impact_affected]
  decide

/-- C7 (amended): for duplicate-free `changed_assets`, `affected_transformations`
holds exactly one record `{targetAsset, transformationType, triggeringSource}` per
(logged transformation, triggering source) pair whose source is both changed and
in the transformation's source set: the record list is exactly the per-source
expansion, and its length is the total pair count over the log.  (With duplicated
changed assets the code instead emits one record per occurrence.) -/
theorem claim7_affected_transformation_records (t : Tracker) (changed : List Str)
    (hnd : changed.Nodup) :
    (analyze_impact t changed).affected_transformations =
      changed.flatMap (fun a =>
        (t.transformations.filter (fun tr => decide (a ∈ tr.source_assets))).map
          (fun tr => ⟨tr.target_asset, tr.transformation_type, a⟩)) ∧
    (analyze_impact t changed).affected_transformations.length =
      (t.transformations.map (fun tr =>
        (changed.filter (fun a => decide (a ∈ tr.source_assets))).length)).sum := by
  refine ⟨analyze_impact_affected t changed, ?_⟩
  rw [analyze_impact_affected, List.length_flatMap]
  simp only [Function.comp_def, List.length_map]
  exact sum_filter_comm changed t.transformations (fun a tr => decide (a ∈ tr.source_assets))

/-- Witness for C7 (amended) at `strayTracker` with the duplicate-free input `["a"]`. -/
theorem claim7_affected_transformation_records_witness :
    (["a"] : List Str).Nodup ∧
    ((analyze_impact strayTracker ["a"]).affected_transformations =
      (["a"] : List Str).flatMap (fun a =>
        (strayTracker.transformations.filter (fun tr => decide (a ∈ tr.source_assets))).map
          (fun tr => ⟨tr.target_asset, tr.transformation_type, a⟩)) ∧
    (analyze_impact strayTracker ["a"]).affected_transformations.length =
      (strayTracker.transformations.map (fun tr =>
        ((["a"] : List Str).filter (fun a => decide (a ∈ tr.source_assets))).length)).sum) :=
  ⟨by decide, claim7_affected_transformation_records strayTracker ["a"] (by decide)⟩

/-! ## Rebuild versus incremental construction -/

theorem exists_mem_cons_distrib {α : Type} (a : α) (l : List α) (P : α → Prop) :
    (∃ x ∈ a :: l, P x) ↔ P a ∨ ∃ x ∈ l, P x := by
  constructor
  · rintro ⟨x, hx, hp⟩
    rcases List.mem_cons.mp hx with rfl | hx
    · exact Or.inl hp
    · exact Or.inr ⟨x, hx, hp⟩
  · rintro (hp | ⟨x, hx, hp⟩)
    · exact ⟨a, List.mem_cons_self _ _, hp⟩
    · exact ⟨x, List.mem_cons_of_mem _ hx, hp⟩

theorem exists_mem_append_singleton {α : Type} (l : List α) (a : α) (P : α → Prop) :
    (∃ x ∈ l ++ [a], P x) ↔ (∃ x ∈ l, P x) ∨ P a := by
  constructor
  · rintro ⟨x, hx, hp⟩
    rcases List.mem_append.mp hx with hx | hx
    · exact Or.inl ⟨x, hx, hp⟩
    · rcases List.mem_singleton.mp hx with rfl
      exact Or.inr hp
  · rintro (⟨x, hx, hp⟩ | hp)
    · exact ⟨x, List.mem_append_left _ hx, hp⟩
    · exact ⟨a, List.mem_append_right _ (List.mem_singleton.mpr rfl), hp⟩

theorem incr_spec_step (t : Tracker) (o : Op)
    (h : (∀ k x, x ∈ getEdges t.dependencies k ↔
        ∃ tr ∈ t.transformations, tr.target_asset = k ∧ x ∈ tr.source_assets) ∧
      (∀ k x, x ∈ getEdges t.downstream k ↔
        ∃ tr ∈ t.transformations, tr.target_asset = x ∧ k ∈ tr.source_assets) ∧
      (∀ k, k ∈ keysOf t.dependencies ↔
        k ∈ keysOf t.assets ∨ ∃ tr ∈ t.transformations, tr.target_asset = k) ∧
      (∀ k, k ∈ keysOf t.downstream ↔
        k ∈ keysOf t.assets ∨ ∃ tr ∈ t.transformations, k ∈ tr.source_assets)) :
    (∀ k x, x ∈ getEdges (applyOp t o).dependencies k ↔
      ∃ tr ∈ (applyOp t o).transformations, tr.target_asset = k ∧ x ∈ tr.source_assets) ∧
    (∀ k x, x ∈ getEdges (applyOp t o).downstream k ↔
      ∃ tr ∈ (applyOp t o).transformations, tr.target_asset = x ∧ k ∈ tr.source_assets) ∧
    (∀ k, k ∈ keysOf (applyOp t o).dependencies ↔
      k ∈ keysOf (applyOp t o).assets ∨
        ∃ tr ∈ (applyOp t o).transformations, tr.target_asset = k) ∧
    (∀ k, k ∈ keysOf (applyOp t o).downstream ↔
      k ∈ keysOf (applyOp t o).assets ∨
        ∃ tr ∈ (applyOp t o).transformations, k ∈ tr.source_assets) := by
  obtain ⟨h1, h2, h3, h4⟩ := h
  cases o with
  | asset a =>
    refine ⟨?_, ?_, ?_, ?_⟩
    · intro k x
      rw [show (applyOp t (Op.asset a)).dependencies
          = ensureKey t.dependencies (assetKey a) from rfl, getEdges_ensureKey]
      exact h1 k x
    · intro k x
      rw [show (applyOp t (Op.asset a)).downstream
          = ensureKey t.downstream (assetKey a) from rfl, getEdges_ensureKey]
      exact h2 k x
    · intro k
      rw [show (applyOp t (Op.asset a)).dependencies
          = ensureKey t.dependencies (assetKey a) from rfl, mem_keysOf_ensureKey,
        show (applyOp t (Op.asset a)).assets = dictSet t.assets (assetKey a) a from rfl,
        mem_keysOf_dictSet, h3 k]
      tauto
    · intro k
      rw [show (applyOp t (Op.asset a)).downstream
          = ensureKey t.downstream (assetKey a) from rfl, mem_keysOf_ensureKey,
        show (applyOp t (Op.asset a)).assets = dictSet t.assets (assetKey a) a from rfl,
        mem_keysOf_dictSet, h4 k]
      tauto
  | transform tr0 =>
    have htr : (add_transformation t tr0).transformations
        = t.transformations ++ [tr0] := rfl
    have hassets : (add_transformation t tr0).assets = t.assets := rfl
    refine ⟨?_, ?_, ?_, ?_⟩
    · intro k x
      rw [show applyOp t (Op.transform tr0) = add_transformation t tr0 from rfl,
        add_transformation_deps_mem, htr, h1 k x]
      constructor
      · rintro (⟨tr, hmem, hp⟩ | ⟨hk, hx⟩)
        · exact ⟨tr, List.mem_append_left _ hmem, hp⟩
        · exact ⟨tr0, List.mem_append_right _ (List.mem_singleton.mpr rfl), hk.symm, hx⟩
      · rintro ⟨tr, hmem, hp⟩
        rcases List.mem_append.mp hmem with hmem | hmem
        · exact Or.inl ⟨tr, hmem, hp⟩
        · rcases List.mem_singleton.mp hmem with rfl
          exact Or.inr ⟨hp.1.symm, hp.2⟩
    · intro k x
      rw [show applyOp t (Op.transform tr0) = add_transformation t tr0 from rfl,
        add_transformation_ds_mem, htr, h2 k x]
      constructor
      · rintro (⟨tr, hmem, hp⟩ | ⟨hx, hk⟩)
        · exact ⟨tr, List.mem_append_left _ hmem, hp⟩
        · exact ⟨tr0, List.mem_append_right _ (List.mem_singleton.mpr rfl), hx.symm, hk⟩
      · rintro ⟨tr, hmem, hp⟩
        rcases List.mem_append.mp hmem with hmem | hmem
        · exact Or.inl ⟨tr, hmem, hp⟩
        · rcases List.mem_singleton.mp hmem with rfl
          exact Or.inr ⟨hp.1.symm, hp.2⟩
    · intro k
      rw [show applyOp t (Op.transform tr0) = add_transformation t tr0 from rfl,
        add_transformation_deps_keys, htr, hassets, h3 k]
      constructor
      · rintro (hk | (ha | ⟨tr, hmem, hp⟩))
        · exact Or.inr ⟨tr0, List.mem_append_right _ (List.mem_singleton.mpr rfl), hk.symm⟩
        · exact Or.inl ha
        · exact Or.inr ⟨tr, List.mem_append_left _ hmem, hp⟩
      · rintro (ha | ⟨tr, hmem, hp⟩)
        · exact Or.inr (Or.inl ha)
        · rcases List.mem_append.mp hmem with hmem | hmem
          · exact Or.inr (Or.inr ⟨tr, hmem, hp⟩)
          · rcases List.mem_singleton.mp hmem with rfl
            exact Or.inl hp.symm
    · intro k
      rw [show applyOp t (Op.transform tr0) = add_transformation t tr0 from rfl,
        add_transformation_ds_keys, htr, hassets, h4 k]
      constructor
      · rintro ((ha | ⟨tr, hmem, hp⟩) | hk)
        · exact Or.inl ha
        · exact Or.inr ⟨tr, List.mem_append_left _ hmem, hp⟩
        · exact Or.inr ⟨tr0, List.mem_append_right _ (List.mem_singleton.mpr rfl), hk⟩
      · rintro (ha | ⟨tr, hmem, hp⟩)
        · exact Or.inl (Or.inl ha)
        · rcases List.mem_append.mp hmem with hmem | hmem
          · exact Or.inl (Or.inr ⟨tr, hmem, hp⟩)
          · rcases List.mem_singleton.mp hmem with rfl
            exact Or.inr hp

theorem incr_spec_fold (ops : List Op) :
    ∀ (t : Tracker),
      ((∀ k x, x ∈ getEdges t.dependencies k ↔
          ∃ tr ∈ t.transformations, tr.target_asset = k ∧ x ∈ tr.source_assets) ∧
        (∀ k x, x ∈ getEdges t.downstream k ↔
          ∃ tr ∈ t.transformations, tr.target_asset = x ∧ k ∈ tr.source_assets) ∧
        (∀ k, k ∈ keysOf t.dependencies ↔
          k ∈ keysOf t.assets ∨ ∃ tr ∈ t.transformations, tr.target_asset = k) ∧
        (∀ k, k ∈ keysOf t.downstream ↔
          k ∈ keysOf t.assets ∨ ∃ tr ∈ t.transformations, k ∈ tr.source_assets)) →
      ((∀ k x, x ∈ getEdges (applyOps t ops).dependencies k ↔
          ∃ tr ∈ (applyOps t ops).transformations,
            tr.target_asset = k ∧ x ∈ tr.source_assets) ∧
        (∀ k x, x ∈ getEdges (applyOps t ops).downstream k ↔
          ∃ tr ∈ (applyOps t ops).transformations,
            tr.target_asset = x ∧ k ∈ tr.source_assets) ∧
        (∀ k, k ∈ keysOf (applyOps t ops).dependencies ↔
          k ∈ keysOf (applyOps t ops).assets ∨
            ∃ tr ∈ (applyOps t ops).transformations, tr.target_asset = k) ∧
        (∀ k, k ∈ keysOf (applyOps t ops).downstream ↔
          k ∈ keysOf (applyOps t ops).assets ∨
            ∃ tr ∈ (applyOps t ops).transformations, k ∈ tr.source_assets)) := by
  induction ops with
  | nil =>
    intro t h
    exact h
  | cons o ops ih =>
    intro t h
    rw [show applyOps t (o :: ops) = applyOps (applyOp t o) ops from rfl]
    exact ih (applyOp t o) (incr_spec_step t o h)

theorem incr_spec (ops : List Op) :
    (∀ k x, x ∈ getEdges (applyOps emptyTracker ops).dependencies k ↔
      ∃ tr ∈ (applyOps emptyTracker ops).transformations,
        tr.target_asset = k ∧ x ∈ tr.source_assets) ∧
    (∀ k x, x ∈ getEdges (applyOps emptyTracker ops).downstream k ↔
      ∃ tr ∈ (applyOps emptyTracker ops).transformations,
        tr.target_asset = x ∧ k ∈ tr.source_assets) ∧
    (∀ k, k ∈ keysOf (applyOps emptyTracker ops).dependencies ↔
      k ∈ keysOf (applyOps emptyTracker ops).assets ∨
        ∃ tr ∈ (applyOps emptyTracker ops).transformations, tr.target_asset = k) ∧
    (∀ k, k ∈ keysOf (applyOps emptyTracker ops).downstream ↔
      k ∈ keysOf (applyOps emptyTracker ops).assets ∨
        ∃ tr ∈ (applyOps emptyTracker ops).transformations, k ∈ tr.source_assets) := by
  apply incr_spec_fold ops emptyTracker
  refine ⟨?_, ?_, ?_, ?_⟩ <;> intro k <;>
    simp [emptyTracker, getEdges, dictLookup_nil, keysOf]

theorem getEdges_init (assets : List (Str × DataAsset)) (k : Str) :
    getEdges (assets.map (fun p => (p.1, ([] : List Str)))) k = [] := by
  induction assets with
  | nil => rfl
  | cons p assets ih =>
    unfold getEdges at ih ⊢
    rw [List.map_cons, dictLookup_cons]
    by_cases h : p.1 = k
    · simp [h]
    · simp only [h, if_false]
      exact ih

theorem mem_keysOf_init (assets : List (Str × DataAsset)) (k : Str) :
    k ∈ keysOf (assets.map (fun p => (p.1, ([] : List Str)))) ↔ k ∈ keysOf assets := by
  unfold keysOf
  rw [List.map_map]
  exact Iff.rfl

theorem rebuildSources_spec (target : Str) (srcs : List Str) :
    ∀ (deps ds : List (Str × List Str)),
      target ∈ keysOf deps → (∀ s ∈ srcs, s ∈ keysOf ds) →
      (rebuildSources deps ds target srcs).2 = true ∧
      (∀ k, k ∈ keysOf (rebuildSources deps ds target srcs).1.1 ↔ k ∈ keysOf deps) ∧
      (∀ k, k ∈ keysOf (rebuildSources deps ds target srcs).1.2 ↔ k ∈ keysOf ds) ∧
      (∀ k x, x ∈ getEdges (rebuildSources deps ds target srcs).1.1 k ↔
        x ∈ getEdges deps k ∨ (k = target ∧ x ∈ srcs)) ∧
      (∀ k x, x ∈ getEdges (rebuildSources deps ds target srcs).1.2 k ↔
        x ∈ getEdges ds k ∨ (x = target ∧ k ∈ srcs)) := by
  induction srcs with
  | nil =>
    intro deps ds htarget hsrcs
    refine ⟨rfl, fun k => Iff.rfl, fun k => Iff.rfl, fun k x => ?_, fun k x => ?_⟩
    · show x ∈ getEdges deps k ↔ x ∈ getEdges deps k ∨ (k = target ∧ x ∈ ([] : List Str))
      simp
    · show x ∈ getEdges ds k ↔ x ∈ getEdges ds k ∨ (x = target ∧ k ∈ ([] : List Str))
      simp
  | cons s rest ih =>
    intro deps ds htarget hsrcs
    rcases hl1 : dictLookup deps target with _ | depSet
    · exact absurd ((mem_keysOf_iff deps target).mp htarget) (by rw [hl1]; simp)
    · rcases hl2 : dictLookup ds s with _ | dsSet
      · exact absurd ((mem_keysOf_iff ds s).mp (hsrcs s (List.mem_cons_self _ _)))
          (by rw [hl2]; simp)
      · have heq : rebuildSources deps ds target (s :: rest)
            = rebuildSources (addEdge deps target s) (addEdge ds s target) target rest := by
          rw [rebuildSources, hl1, hl2]
          rw [show addEdge deps target s = dictSet deps target (ssetInsert depSet s) from by
              rw [addEdge, hl1],
            show addEdge ds s target = dictSet ds s (ssetInsert dsSet target) from by
              rw [addEdge, hl2]]
        rw [heq]
        have htarget' : target ∈ keysOf (addEdge deps target s) :=
          (mem_keysOf_addEdge deps target s target).mpr htarget
        have hsrcs' : ∀ s' ∈ rest, s' ∈ keysOf (addEdge ds s target) := fun s' hs' =>
          (mem_keysOf_addEdge ds s target s').mpr (hsrcs s' (List.mem_cons_of_mem _ hs'))
        obtain ⟨hflag, hk1, hk2, he1, he2⟩ := ih (addEdge deps target s) (addEdge ds s target)
          htarget' hsrcs'
        refine ⟨hflag, ?_, ?_, ?_, ?_⟩
        · intro k
          rw [hk1 k, mem_keysOf_addEdge]
        · intro k
          rw [hk2 k, mem_keysOf_addEdge]
        · intro k x
          rw [he1 k x, mem_getEdges_addEdge]
          simp only [List.mem_cons, htarget, and_true]
          tauto
        · intro k x
          rw [he2 k x, mem_getEdges_addEdge]
          have hs : s ∈ keysOf ds := hsrcs s (List.mem_cons_self _ _)
          simp only [List.mem_cons, hs, and_true]
          tauto

theorem rebuildTrans_spec :
    ∀ (trs : List DataTransformation) (deps ds : List (Str × List Str)),
      (∀ tr ∈ trs, tr.target_asset ∈ keysOf deps ∧
        ∀ s ∈ tr.source_assets, s ∈ keysOf ds) →
      (rebuildTrans deps ds trs).2 = true ∧
      (∀ k, k ∈ keysOf (rebuildTrans deps ds trs).1.1 ↔ k ∈ keysOf deps) ∧
      (∀ k, k ∈ keysOf (rebuildTrans deps ds trs).1.2 ↔ k ∈ keysOf ds) ∧
      (∀ k x, x ∈ getEdges (rebuildTrans deps ds trs).1.1 k ↔
        x ∈ getEdges deps k ∨ ∃ tr ∈ trs, tr.target_asset = k ∧ x ∈ tr.source_assets) ∧
      (∀ k x, x ∈ getEdges (rebuildTrans deps ds trs).1.2 k ↔
        x ∈ getEdges ds k ∨ ∃ tr ∈ trs, tr.target_asset = x ∧ k ∈ tr.source_assets) := by
  intro trs
  induction trs with
  | nil =>
    intro deps ds hreg
    refine ⟨rfl, fun k => Iff.rfl, fun k => Iff.rfl, fun k x => ?_, fun k x => ?_⟩
    · show x ∈ getEdges deps k ↔ x ∈ getEdges deps k ∨
        ∃ tr ∈ ([] : List DataTransformation), tr.target_asset = k ∧ x ∈ tr.source_assets
      simp
    · show x ∈ getEdges ds k ↔ x ∈ getEdges ds k ∨
        ∃ tr ∈ ([] : List DataTransformation), tr.target_asset = x ∧ k ∈ tr.source_assets
      simp
  | cons tr rest ih =>
    intro deps ds hreg
    obtain ⟨hflag0, hk10, hk20, he10, he20⟩ :=
      rebuildSources_spec tr.target_asset tr.source_assets deps ds
        (hreg tr (List.mem_cons_self _ _)).1 (hreg tr (List.mem_cons_self _ _)).2
    have heq : rebuildTrans deps ds (tr :: rest)
        = rebuildTrans (rebuildSources deps ds tr.target_asset tr.source_assets).1.1
            (rebuildSources deps ds tr.target_asset tr.source_assets).1.2 rest := by
      rw [rebuildTrans, if_pos hflag0]
    rw [heq]
    have hreg' : ∀ tr' ∈ rest,
        tr'.target_asset ∈ keysOf (rebuildSources deps ds tr.target_asset tr.source_assets).1.1 ∧
        ∀ s ∈ tr'.source_assets,
          s ∈ keysOf (rebuildSources deps ds tr.target_asset tr.source_assets).1.2 := by
      intro tr' htr'
      refine ⟨(hk10 _).mpr (hreg tr' (List.mem_cons_of_mem _ htr')).1, fun s hs =>
        (hk20 _).mpr ((hreg tr' (List.mem_cons_of_mem _ htr')).2 s hs)⟩
    obtain ⟨hflag, hk1, hk2, he1, he2⟩ := ih _ _ hreg'
    refine ⟨hflag, ?_, ?_, ?_, ?_⟩
    · intro k
      rw [hk1 k, hk10 k]
    · intro k
      rw [hk2 k, hk20 k]
    · intro k x
      rw [he1 k x, he10 k x]
      constructor
      · rintro ((hx | ⟨hk, hs⟩) | ⟨tr', hmem, hp⟩)
        · exact Or.inl hx
        · exact Or.inr ⟨tr, List.mem_cons_self _ _, hk.symm, hs⟩
        · exact Or.inr ⟨tr', List.mem_cons_of_mem _ hmem, hp⟩
      · rintro (hx | ⟨tr', hmem, hp⟩)
        · exact Or.inl (Or.inl hx)
        · rcases List.mem_cons.mp hmem with rfl | hmem
          · exact Or.inl (Or.inr ⟨hp.1.symm, hp.2⟩)
          · exact Or.inr ⟨tr', hmem, hp⟩
    · intro k x
      rw [he2 k x, he20 k x]
      constructor
      · rintro ((hx | ⟨hk, hs⟩) | ⟨tr', hmem, hp⟩)
        · exact Or.inl hx
        · exact Or.inr ⟨tr, List.mem_cons_self _ _, hk.symm, hs⟩
        · exact Or.inr ⟨tr', List.mem_cons_of_mem _ hmem, hp⟩
      · rintro (hx | ⟨tr', hmem, hp⟩)
        · exact Or.inl (Or.inl hx)
        · rcases List.mem_cons.mp hmem with rfl | hmem
          · exact Or.inl (Or.inr ⟨hp.1.symm, hp.2⟩)
          · exact Or.inr ⟨tr', hmem, hp⟩

/-- C2 counterexample: `strayTracker` logs the transformation `a → b` but registers
no assets; `_rebuild_dependency_graphs` then raises `KeyError` (failure flag) and
leaves the cleared maps behind, while the incrementally built map holds the edge —
so rebuild does fail, and the maps differ. -/
theorem claim2_counterexample :
    (rebuild_dependency_graphs strayTracker).2 = false ∧
    (rebuild_dependency_graphs strayTracker).1.dependencies = [] ∧
    getEdges strayTracker.dependencies "b" = ["a"] :=
  ⟨by decide, by decide, by decide⟩

/-- C2 (amended): for every producer-call sequence from a fresh tracker in which
every logged transformation's target and sources are registered asset keys,
`_rebuild_dependency_graphs` does not fail, and the rebuilt `dependencies` and
`downstream` maps agree with the incrementally built maps on key sets and on the
edge set of every key (hence the rebuilt maps do not depend on the call order).
Without the registration premise the rebuild raises `KeyError`. -/
theorem claim2_rebuild_matches_incremental (ops : List Op)
    (hreg : ∀ tr ∈ (applyOps emptyTracker ops).transformations,
      tr.target_asset ∈ keysOf (applyOps emptyTracker ops).assets ∧
      ∀ s ∈ tr.source_assets, s ∈ keysOf (applyOps emptyTracker ops).assets) :
    (rebuild_dependency_graphs (applyOps emptyTracker ops)).2 = true ∧
    (∀ k, k ∈ keysOf (rebuild_dependency_graphs (applyOps emptyTracker ops)).1.dependencies ↔
      k ∈ keysOf (applyOps emptyTracker ops).dependencies) ∧
    (∀ k, k ∈ keysOf (rebuild_dependency_graphs (applyOps emptyTracker ops)).1.downstream ↔
      k ∈ keysOf (applyOps emptyTracker ops).downstream) ∧
    (∀ k x,
      x ∈ getEdges (rebuild_dependency_graphs (applyOps emptyTracker ops)).1.dependencies k ↔
      x ∈ getEdges (applyOps emptyTracker ops).dependencies k) ∧
    (∀ k x,
      x ∈ getEdges (rebuild_dependency_graphs (applyOps emptyTracker ops)).1.downstream k ↔
      x ∈ getEdges (applyOps emptyTracker ops).downstream k) := by
  obtain ⟨hd1, hd2, hd3, hd4⟩ := incr_spec ops
  have hreginit : ∀ tr ∈ (applyOps emptyTracker ops).transformations,
      tr.target_asset ∈ keysOf ((applyOps emptyTracker ops).assets.map
        (fun p => (p.1, ([] : List Str)))) ∧
      ∀ s ∈ tr.source_assets, s ∈ keysOf ((applyOps emptyTracker ops).assets.map
        (fun p => (p.1, ([] : List Str)))) := by
    intro tr htr
    exact ⟨(mem_keysOf_init _ _).mpr (hreg tr htr).1, fun s hs =>
      (mem_keysOf_init _ _).mpr ((hreg tr htr).2 s hs)⟩
  obtain ⟨hflag, hk1, hk2, he1, he2⟩ :=
    rebuildTrans_spec (applyOps emptyTracker ops).transformations
      ((applyOps emptyTracker ops).assets.map (fun p => (p.1, ([] : List Str))))
      ((applyOps emptyTracker ops).assets.map (fun p => (p.1, ([] : List Str)))) hreginit
  refine ⟨hflag, ?_, ?_, ?_, ?_⟩
  · intro k
    have hL : k ∈ keysOf (rebuild_dependency_graphs
          (applyOps emptyTracker ops)).1.dependencies ↔
        k ∈ keysOf (applyOps emptyTracker ops).assets :=
      (hk1 k).trans (mem_keysOf_init _ k)
    rw [hL, hd3 k]
    constructor
    · exact Or.inl
    · rintro (ha | ⟨tr, htr, htarget⟩)
      · exact ha
      · exact htarget ▸ (hreg tr htr).1
  · intro k
    have hL : k ∈ keysOf (rebuild_dependency_graphs
          (applyOps emptyTracker ops)).1.downstream ↔
        k ∈ keysOf (applyOps emptyTracker ops).assets :=
      (hk2 k).trans (mem_keysOf_init _ k)
    rw [hL, hd4 k]
    constructor
    · exact Or.inl
    · rintro (ha | ⟨tr, htr, hs⟩)
      · exact ha
      · exact (hreg tr htr).2 k hs
  · intro k x
    have hL : x ∈ getEdges (rebuild_dependency_graphs
          (applyOps emptyTracker ops)).1.dependencies k ↔
        ∃ tr ∈ (applyOps emptyTracker ops).transformations,
          tr.target_asset = k ∧ x ∈ tr.source_assets :=
      (he1 k x).trans (by rw [getEdges_init]; simp)
    exact hL.trans (hd1 k x).symm
  · intro k x
    have hL : x ∈ getEdges (rebuild_dependency_graphs
          (applyOps emptyTracker ops)).1.downstream k ↔
        ∃ tr ∈ (applyOps emptyTracker ops).transformations,
          tr.target_asset = x ∧ k ∈ tr.source_assets :=
      (he2 k x).trans (by rw [getEdges_init]; simp)
    exact hL.trans (hd2 k x).symm

/-- Witness for C2 (amended) at the walkthrough call sequence `demoOps`. -/
theorem claim2_rebuild_matches_incremental_witness :
    (∀ tr ∈ (applyOps emptyTracker demoOps).transformations,
      tr.target_asset ∈ keysOf (applyOps emptyTracker demoOps).assets ∧
      ∀ s ∈ tr.source_assets, s ∈ keysOf (applyOps emptyTracker demoOps).assets) ∧
    ((rebuild_dependency_graphs (applyOps emptyTracker demoOps)).2 = true ∧
    (∀ k, k ∈ keysOf (rebuild_dependency_graphs (applyOps emptyTracker demoOps)).1.dependencies ↔
      k ∈ keysOf (applyOps emptyTracker demoOps).dependencies) ∧
    (∀ k, k ∈ keysOf (rebuild_dependency_graphs (applyOps emptyTracker demoOps)).1.downstream ↔
      k ∈ keysOf (applyOps emptyTracker demoOps).downstream) ∧
    (∀ k x,
      x ∈ getEdges (rebuild_dependency_graphs (applyOps emptyTracker demoOps)).1.dependencies k ↔
      x ∈ getEdges (applyOps emptyTracker demoOps).dependencies k) ∧
    (∀ k x,
      x ∈ getEdges (rebuild_dependency_graphs (applyOps emptyTracker demoOps)).1.downstream k ↔
      x ∈ getEdges (applyOps emptyTracker demoOps).downstream k)) :=
  ⟨by decide, claim2_rebuild_matches_incremental demoOps (by decide)⟩


theorem mapM_loop_jStr (l : List Str) :
    ∀ acc, List.mapM.loop jStr? (l.map JValue.jstr) acc = some (acc.reverse ++ l) := by
  induction l with
  | nil =>
    intro acc
    simp [List.mapM.loop]
  | cons s l ih =>
    intro acc
    simp [List.mapM.loop, jStr?, ih, List.reverse_cons, List.append_assoc]

theorem mapM_jStr_roundtrip (l : List Str) :
    (l.map JValue.jstr).mapM jStr? = some l := by
  rw [show (l.map JValue.jstr).mapM jStr?
    = List.mapM.loop jStr? (l.map JValue.jstr) [] from rfl, mapM_loop_jStr]
  rfl

theorem jOptStr_optJson (x : Option Str) : jOptStr? (optJson x) = some x := by
  cases x <;> rfl

theorem jTags_roundtrip (l : List Str) : jTags? (JValue.jarr (l.map JValue.jstr)) = some l := by
  simp [jTags?, mapM_loop_jStr]

theorem assetFromJson_roundtrip (a : DataAsset) :
    assetFromJson (assetToJson a) = some a := by
  rcases a with ⟨name, type, schema, desc, cd, lm, ow, tags⟩
  simp [assetFromJson, assetToJson, dictLookup, List.find?, jStr?, jOptStr_optJson,
    jTags?, mapM_loop_jStr, optJson]
  cases desc <;> cases cd <;> cases lm <;> cases ow <;> simp [optJson, jOptStr?]

theorem transformationFromJson_roundtrip (tr : DataTransformation) :
    transformationFromJson (transformationToJson tr) = some tr := by
  rcases tr with ⟨srcs, tgt, ty, lg, cd, cb⟩
  simp [transformationFromJson, transformationToJson, dictLookup, List.find?, jStr?,
    jStrList?, mapM_loop_jStr]


theorem dictSet_append {V : Type} (d : List (Str × V)) (k : Str) (v : V)
    (h : k ∉ keysOf d) : dictSet d k v = d ++ [(k, v)] := by
  rw [dictSet, if_neg]
  intro hc
  exact h ((dictContains_iff d k).mp hc)

theorem keysOf_append {V : Type} (a b : List (Str × V)) :
    keysOf (a ++ b) = keysOf a ++ keysOf b := List.map_append Prod.fst a b

theorem loadAssetsRun_replay :
    ∀ (l acc : List (Str × DataAsset)), (keysOf (acc ++ l)).Nodup →
      loadAssetsRun acc (l.map (fun p => (p.1, assetToJson p.2))) = (acc ++ l, true) := by
  intro l
  induction l with
  | nil =>
    intro acc h
    simp [loadAssetsRun]
  | cons p l ih =>
    intro acc h
    rw [List.map_cons,
      show loadAssetsRun acc ((p.1, assetToJson p.2) :: l.map (fun p => (p.1, assetToJson p.2)))
        = loadAssetsRun (dictSet acc p.1 p.2) (l.map (fun p => (p.1, assetToJson p.2))) from by
        simp [loadAssetsRun, assetFromJson_roundtrip]]
    have hk : p.1 ∉ keysOf acc := by
      intro hmem
      rw [keysOf_append] at h
      have hdisj := (List.nodup_append.mp h).2.2
      exact hdisj hmem (List.mem_map_of_mem Prod.fst (List.mem_cons_self _ _))
    rw [dictSet_append acc p.1 p.2 hk]
    have h' : (keysOf ((acc ++ [(p.1, p.2)]) ++ l)).Nodup := by
      rw [List.append_assoc]
      exact h
    rw [ih (acc ++ [(p.1, p.2)]) h', List.append_assoc]
    simp

theorem loadTransRun_replay :
    ∀ (l acc : List DataTransformation),
      loadTransRun acc (l.map transformationToJson) = (acc ++ l, true) := by
  intro l
  induction l with
  | nil =>
    intro acc
    simp [loadTransRun]
  | cons tr l ih =>
    intro acc
    rw [List.map_cons,
      show loadTransRun acc (transformationToJson tr :: l.map transformationToJson)
        = loadTransRun (acc ++ [tr]) (l.map transformationToJson) from by
        simp [loadTransRun, transformationFromJson_roundtrip],
      ih, List.append_assoc]
    rfl

theorem claim8_persistence_roundtrip (t : Tracker) (now : Str)
    (hnd : (keysOf t.assets).Nodup) :
    (load_lineage emptyTracker (save_lineage t now)).assets = t.assets ∧
    (load_lineage emptyTracker (save_lineage t now)).transformations = t.transformations ∧
    (load_lineage emptyTracker (save_lineage t now)).dependencies
      = (rebuild_dependency_graphs t).1.dependencies ∧
    (load_lineage emptyTracker (save_lineage t now)).downstream
      = (rebuild_dependency_graphs t).1.downstream := by
  have hra := loadAssetsRun_replay t.assets [] (by simpa using hnd)
  have hrt := loadTransRun_replay t.transformations []
  have hstep1 : load_lineage emptyTracker (save_lineage t now)
      = (let ra := loadAssetsRun [] (t.assets.map (fun p => (p.1, assetToJson p.2)))
         let t1 := { emptyTracker with assets := ra.1 }
         if ra.2 then
           let rt := loadTransRun t1.transformations
             (t.transformations.map transformationToJson)
           let t2 := { t1 with transformations := rt.1 }
           if rt.2 then (rebuild_dependency_graphs t2).1 else t2
         else t1) := rfl
  have hload : load_lineage emptyTracker (save_lineage t now)
      = (rebuild_dependency_graphs
          { assets := t.assets, transformations := [] ++ t.transformations,
            dependencies := [], downstream := [] }).1 := by
    rw [hstep1]
    simp only [hra, hrt, emptyTracker]
    simp [hrt]
  rw [hload]
  exact ⟨rfl, rfl, rfl, rfl⟩

/-- Witness for C8 at the spec's walkthrough tracker. -/
theorem claim8_persistence_roundtrip_witness :
    (keysOf sampleTracker.assets).Nodup ∧
    ((load_lineage emptyTracker (save_lineage sampleTracker "2024-01-01")).assets
        = sampleTracker.assets ∧
      (load_lineage emptyTracker (save_lineage sampleTracker "2024-01-01")).transformations
        = sampleTracker.transformations ∧
      (load_lineage emptyTracker (save_lineage sampleTracker "2024-01-01")).dependencies
        = (rebuild_dependency_graphs sampleTracker).1.dependencies ∧
      (load_lineage emptyTracker (save_lineage sampleTracker "2024-01-01")).downstream
        = (rebuild_dependency_graphs sampleTracker).1.downstream) :=
  ⟨by decide, claim8_persistence_roundtrip sampleTracker "2024-01-01" (by decide)⟩

/-- C9: `generate_lineage_diagram` succeeds exactly on the two supported dialects
(`mermaid` and `dot`) and raises `ValueError` with the unsupported-format message
on every other format string — never a silent fallback to a default dialect. -/
theorem claim9_diagram_format_validation (t : Tracker) (fmt : Str) :
    ((∃ s, generate_lineage_diagram t fmt = Except.ok s) ↔
      (fmt = "mermaid" ∨ fmt = "dot")) ∧
    (generate_lineage_diagram t fmt
        = Except.error ("Unsupported output format: " ++ fmt) ↔
      ¬ (fmt = "mermaid" ∨ fmt = "dot")) := by
  unfold generate_lineage_diagram
  by_cases h1 : fmt = "mermaid"
  · rw [if_pos (show (fmt == "mermaid") = true by simp [h1])]
    constructor
    · simp [h1]
    · simp [h1]
  · rw [if_neg (show ¬ (fmt == "mermaid") = true by simp [h1])]
    by_cases h2 : fmt = "dot"
    · rw [if_pos (show (fmt == "dot") = true by simp [h2])]
      constructor
      · simp [h2]
      · simp [h1, h2]
    · rw [if_neg (show ¬ (fmt == "dot") = true by simp [h2])]
      constructor
      · simp [h1, h2]
      · simp [h1, h2]

end DataLineage
